import Mathlib

/-!
Verification development for the filesystem-native task engine of the
obsidian-mcp repository (`src/tools/tasks.py`).

Lines of markdown text are modelled as `List Char`; calendar dates as a
`Date` record; the `Task` entity mirrors the pydantic model.  The regex
patterns imported from `src/utils/patterns.py` (a module whose source is
not part of the snapshot) are modelled from the spec's description of the
token syntax (section 6: emoji marker followed by a `YYYY-MM-DD` day
string; `🔁` followed by recurrence text; `- [ ]`/`- [x]` checkboxes;
`#tag` tokens).  Everything else is translated directly from
`src/tools/tasks.py`.
-/

set_option maxHeartbeats 1000000
set_option synthInstance.maxSize 4096

namespace ObsidianTasks

/-! ## Character and whitespace utilities (Python `str.strip`, `\s`) -/

def isWS (c : Char) : Bool :=
  c == ' ' || c == '\t' || c == '\n' || c == '\r'

/-- Python `lstrip` on a list of characters. -/
def stripL (s : List Char) : List Char := s.dropWhile isWS

/-- Python `rstrip` on a list of characters. -/
def stripR (s : List Char) : List Char := (s.reverse.dropWhile isWS).reverse

/-- Python `str.strip()`. -/
def stripWS (s : List Char) : List Char := stripL (stripR s)

/-- ASCII model of Python `str.lower()` (sufficient for the `"every"` check). -/
def lowerChar (c : Char) : Char :=
  if 'A' ≤ c ∧ c ≤ 'Z' then Char.ofNat (c.toNat + 32) else c

def lowerL (s : List Char) : List Char := s.map lowerChar

/-- `pat.isPrefixOf s` written out structurally (Python `str.startswith`). -/
def beginsWith : List Char → List Char → Bool
  | [], _ => true
  | _ :: _, [] => false
  | p :: ps, c :: cs => p == c && beginsWith ps cs

/-! ## Digits and calendar dates -/

def isDigit (c : Char) : Bool := '0' ≤ c && c ≤ '9'

def digitVal (c : Char) : Nat := c.toNat - 48

def digitChar (n : Nat) : Char :=
  if n = 0 then '0' else if n = 1 then '1' else if n = 2 then '2'
  else if n = 3 then '3' else if n = 4 then '4' else if n = 5 then '5'
  else if n = 6 then '6' else if n = 7 then '7' else if n = 8 then '8' else '9'

/-- A calendar date, as carried by a Python `datetime.date`. -/
structure Date where
  year : Nat
  month : Nat
  day : Nat
deriving DecidableEq, BEq, Repr

def isLeapYear (y : Nat) : Bool :=
  (y % 4 == 0 && y % 100 != 0) || y % 400 == 0

def daysInMonth (y m : Nat) : Nat :=
  if m = 2 then (if isLeapYear y then 29 else 28)
  else if m = 4 ∨ m = 6 ∨ m = 9 ∨ m = 11 then 30
  else 31

/-- The dates representable by `datetime.date` (year 1..9999, valid calendar day). -/
def validYMD (y m d : Nat) : Bool :=
  1 ≤ y && y ≤ 9999 && 1 ≤ m && m ≤ 12 && 1 ≤ d && d ≤ daysInMonth y m

def validDate (dt : Date) : Bool := validYMD dt.year dt.month dt.day

/-- Python `date` comparison: lexicographic on (year, month, day). -/
def Date.ltb (a b : Date) : Bool :=
  Nat.blt a.year b.year ||
    (Nat.beq a.year b.year &&
      (Nat.blt a.month b.month ||
        (Nat.beq a.month b.month && Nat.blt a.day b.day)))

def Date.leb (a b : Date) : Bool :=
  Nat.blt a.year b.year ||
    (Nat.beq a.year b.year &&
      (Nat.blt a.month b.month ||
        (Nat.beq a.month b.month && Nat.ble a.day b.day)))

/-- Successor day (calendar rollover), the unit step of `timedelta(days=1)`. -/
def nextDay (d : Date) : Date :=
  if d.day < daysInMonth d.year d.month then ⟨d.year, d.month, d.day + 1⟩
  else if d.month < 12 then ⟨d.year, d.month + 1, 1⟩
  else ⟨d.year + 1, 1, 1⟩

/-- `today + timedelta(days=n)` for a non-negative day count. -/
def addDays : Date → Nat → Date
  | d, 0 => d
  | d, n + 1 => addDays (nextDay d) n

/-- `strftime('%Y-%m-%d')`: zero-padded 4-2-2 digit rendering. -/
def pad2 (n : Nat) : List Char := [digitChar (n / 10 % 10), digitChar (n % 10)]

def pad4 (n : Nat) : List Char :=
  [digitChar (n / 1000 % 10), digitChar (n / 100 % 10),
   digitChar (n / 10 % 10), digitChar (n % 10)]

def fmtDate (dt : Date) : List Char :=
  pad4 dt.year ++ '-' :: pad2 dt.month ++ '-' :: pad2 dt.day

/-- The `\d{4}-\d{2}-\d{2}` capture group at the head of a string: returns the
ten matched characters, ignoring whatever follows. -/
def dateShapeAt : List Char → Option (List Char)
  | a :: b :: c :: d :: e :: f :: g :: h :: i :: j :: _ =>
    if isDigit a && isDigit b && isDigit c && isDigit d && e == '-' &&
       isDigit f && isDigit g && h == '-' && isDigit i && isDigit j then
      some [a, b, c, d, e, f, g, h, i, j]
    else none
  | _ => none

/-- `datetime.strptime(group, "%Y-%m-%d").date()` applied to a ten-character
regex capture: numeric conversion plus calendar validation. -/
def dateOfShaped : List Char → Option Date
  | [a, b, c, d, _e, f, g, _h, i, j] =>
    let y := digitVal a * 1000 + digitVal b * 100 + digitVal c * 10 + digitVal d
    let m := digitVal f * 10 + digitVal g
    let dd := digitVal i * 10 + digitVal j
    if validYMD y m dd then some ⟨y, m, dd⟩ else none
  | _ => none

/-- Greedy one-or-two digit field of `strptime` (`%m`, `%d`). -/
def grabNum : List Char → Option (Nat × List Char)
  | [] => none
  | [a] => if isDigit a then some (digitVal a, []) else none
  | a :: b :: rest =>
    if isDigit a then
      if isDigit b then some (digitVal a * 10 + digitVal b, rest)
      else some (digitVal a, b :: rest)
    else none

/-- `datetime.strptime(s, "%Y-%m-%d")` on a whole argument string: a four-digit
year, `-`, one-or-two-digit month, `-`, one-or-two-digit day, end of string,
then calendar validation.  `none` models the raised `ValueError`. -/
def pyStrptimeYmd (s : List Char) : Option Date :=
  match s with
  | a :: b :: c :: d :: '-' :: rest =>
    if isDigit a && isDigit b && isDigit c && isDigit d then
      let y := digitVal a * 1000 + digitVal b * 100 + digitVal c * 10 + digitVal d
      match grabNum rest with
      | some (m, '-' :: rest2) =>
        match grabNum rest2 with
        | some (dd, []) => if validYMD y m dd then some ⟨y, m, dd⟩ else none
        | _ => none
      | _ => none
    else none
  | _ => none

/-! ## The Task entity (modelled from the spec: `src/models/obsidian.py` is
not in the snapshot; section 3 of the spec lists its attributes). -/

structure Task where
  content : List Char
  status : String
  priority : String
  due_date : Option Date
  scheduled_date : Option Date
  start_date : Option Date
  done_date : Option Date
  created_date : Option Date
  recurrence : Option (List Char)
  tags : List (List Char)
  line_number : Option Nat
  source_file : String
deriving DecidableEq, Repr

/-- The fields the round-trip law quantifies over (everything except tags,
line number and source file). -/
def coreFields (t : Task) :
    List Char × String × String × Option Date × Option Date × Option Date ×
      Option Date × Option Date × Option (List Char) :=
  (t.content, t.status, t.priority, t.due_date, t.scheduled_date,
   t.start_date, t.done_date, t.created_date, t.recurrence)

/-! ## Modelled regex patterns (spec section 6) and the strip steps of
`parse_task_line` (tasks.py lines 63-104). -/

/-- Leftmost match of an `emoji\s*(\d{4}-\d{2}-\d{2})` pattern via `re.search`:
returns the match start index together with the captured date characters. -/
def findDateToken (emoji : Char) : List Char → Option (Nat × List Char)
  | [] => none
  | c :: rest =>
    if c = emoji then
      match dateShapeAt (rest.dropWhile isWS) with
      | some ds => some (0, ds)
      | none => (findDateToken emoji rest).map (fun p => (p.1 + 1, p.2))
    else (findDateToken emoji rest).map (fun p => (p.1 + 1, p.2))

/-- One date strip step of `parse_task_line`: on a pattern match the date is
parsed; if valid, the text is truncated at `match.start()` and right-stripped,
if invalid (`ValueError`) the step leaves the text untouched. -/
def stripDateStep (emoji : Char) (s : List Char) : Option Date × List Char :=
  match findDateToken emoji s with
  | none => (none, s)
  | some (i, ds) =>
    match dateOfShaped ds with
    | some dt => (some dt, stripR (s.take i))
    | none => (none, s)

/-- Leftmost match of the priority pattern `(⏫|🔼|🔽|⏬)`. -/
def findPrioIdx : List Char → Option (Nat × Char)
  | [] => none
  | c :: rest =>
    if c = '⏫' ∨ c = '🔼' ∨ c = '🔽' ∨ c = '⏬' then some (0, c)
    else (findPrioIdx rest).map (fun p => (p.1 + 1, p.2))

/-- `EMOJI_PRIORITY_MAP.get(emoji, "normal")` (tasks.py lines 31-38). -/
def emojiPrio (c : Char) : String :=
  if c = '⏫' then "highest" else if c = '🔼' then "high"
  else if c = '🔽' then "low" else if c = '⏬' then "lowest" else "normal"

def stripPriorityStep (s : List Char) : String × List Char :=
  match findPrioIdx s with
  | some (i, e) => (emojiPrio e, stripR (s.take i))
  | none => ("normal", s)

/-- Leftmost `🔁` index. -/
def findRecIdx : List Char → Option Nat
  | [] => none
  | c :: rest =>
    if c = '🔁' then some 0 else (findRecIdx rest).map (· + 1)

/-- The recurrence strip step: `🔁` followed by (stripped, non-empty)
recurrence text running to the end of the line. -/
def stripRecurrenceStep (s : List Char) : Option (List Char) × List Char :=
  match findRecIdx s with
  | some i =>
    let r := stripWS (s.drop (i + 1))
    if r = [] then (none, s) else (some r, stripR (s.take i))
  | none => (none, s)

def isTagChar (c : Char) : Bool :=
  c.isAlpha || isDigit c || c == '_' || c == '-' || c == '/'

/-- `TAG_PATTERN.finditer`: non-overlapping `#word` tokens. -/
def findTags : List Char → List (List Char)
  | [] => []
  | c :: rest =>
    if c = '#' then
      let tag := rest.takeWhile isTagChar
      if tag = [] then findTags rest
      else tag :: findTags (rest.drop tag.length)
    else findTags rest
termination_by s => s.length
decreasing_by all_goals (simp_wf <;> omega)

/-- `TASK_CHECKBOX.match` on the stripped line: `- [ ] `, `- [x] ` or
`- [X] ` followed by the task text (group 2). -/
def checkboxMatch : List Char → Option (Char × List Char)
  | '-' :: ' ' :: '[' :: c :: ']' :: ' ' :: rest =>
    if c = ' ' ∨ c = 'x' ∨ c = 'X' then some (c, rest) else none
  | _ => none

/-- Result of the metadata extraction phase of `parse_task_line`. -/
structure ParsedMeta where
  done_date : Option Date
  due_date : Option Date
  scheduled_date : Option Date
  start_date : Option Date
  created_date : Option Date
  priority : String
  recurrence : Option (List Char)
  rest : List Char
deriving DecidableEq, Repr

/-- The fixed-order strip pipeline of tasks.py lines 67-98: done, due,
scheduled, start, created dates, then priority, then recurrence. -/
def extractMeta (s : List Char) : ParsedMeta :=
  let p1 := stripDateStep '✅' s
  let p2 := stripDateStep '📅' p1.2
  let p3 := stripDateStep '⏳' p2.2
  let p4 := stripDateStep '🛫' p3.2
  let p5 := stripDateStep '➕' p4.2
  let p6 := stripPriorityStep p5.2
  let p7 := stripRecurrenceStep p6.2
  { done_date := p1.1, due_date := p2.1, scheduled_date := p3.1,
    start_date := p4.1, created_date := p5.1, priority := p6.1,
    recurrence := p7.1, rest := p7.2 }

/-- `parse_task_line(line, line_number, source_file)` (tasks.py lines 41-119). -/
def parse_task_line (line : List Char) (line_number : Nat) (source_file : String) :
    Option Task :=
  match checkboxMatch (stripWS line) with
  | none => none
  | some (statusChar, taskContent) =>
    let status := if lowerChar statusChar = 'x' then "completed" else "incomplete"
    let m := extractMeta (stripWS taskContent)
    some { content := stripWS m.rest, status := status, priority := m.priority,
           due_date := m.due_date, scheduled_date := m.scheduled_date,
           start_date := m.start_date, done_date := m.done_date,
           created_date := m.created_date, recurrence := m.recurrence,
           tags := findTags m.rest, line_number := some line_number,
           source_file := source_file }

/-! ## format_task_line (tasks.py lines 122-159) -/

/-- Priority emoji part: `PRIORITY_EMOJI_MAP` lookup guarded by
`priority and priority != "normal"`; carries the joining space. -/
def prioPart (p : String) : List Char :=
  if p = "highest" then [' ', '⏫']
  else if p = "high" then [' ', '🔼']
  else if p = "low" then [' ', '🔽']
  else if p = "lowest" then [' ', '⏬']
  else []

/-- A date part `"🛫 YYYY-MM-DD"` (with its joining space) when present. -/
def datePart (emoji : Char) : Option Date → List Char
  | some dt => ' ' :: emoji :: ' ' :: fmtDate dt
  | none => []

/-- Recurrence part: appended when `task.recurrence` is truthy. -/
def recPart : Option (List Char) → List Char
  | some r => if r = [] then [] else ' ' :: '🔁' :: ' ' :: r
  | none => []

/-- The joined parts list of `format_task_line` after the checkbox: content,
then priority, start, scheduled, due, done, created, recurrence parts, each
carrying its joining space (realising `' '.join(parts)`). -/
def fmtBody (t : Task) : List Char :=
  t.content ++ prioPart t.priority ++
  datePart '🛫' t.start_date ++ datePart '⏳' t.scheduled_date ++
  datePart '📅' t.due_date ++ datePart '✅' t.done_date ++
  datePart '➕' t.created_date ++ recPart t.recurrence

/-- `format_task_line(task)` (tasks.py lines 122-159). -/
def format_task_line (t : Task) : List Char :=
  (if t.status = "completed"
    then ['-', ' ', '[', 'x', ']', ' ']
    else ['-', ' ', '[', ' ', ']', ' ']) ++ fmtBody t

/-! ## filter_tasks (tasks.py lines 194-276) -/

/-- Is `task.recurrence` truthy (non-`None`, non-empty)? -/
def recTruthy (t : Task) : Bool :=
  match t.recurrence with
  | some r => !r.isEmpty
  | none => false

/-- One optional filter stage: absent parameter or a skipped (falsy /
`"all"`) value leaves the list unchanged, otherwise a list comprehension
keeps the tasks satisfying the predicate. -/
def guardFilter (o : Option α) (skip : α → Bool) (p : α → Task → Bool)
    (l : List Task) : List Task :=
  match o with
  | some x => if skip x then l else l.filter (p x)
  | none => l

/-- The keyword arguments of `filter_tasks`, all optional. -/
structure FilterArgs where
  status : Option String := none
  priority : Option String := none
  due_before : Option Date := none
  due_after : Option Date := none
  due_within_days : Option Nat := none
  scheduled_before : Option Date := none
  scheduled_after : Option Date := none
  scheduled_within_days : Option Nat := none
  has_recurrence : Option Bool := none
  tag : Option (List Char) := none

/-- `filter_tasks(tasks, ...)`: the conjunctive chain of optional filters.
`today` stands for `date.today()`. -/
def filter_tasks (tasks : List Task) (a : FilterArgs) (today : Date) : List Task :=
  let l1 := guardFilter a.status (fun s => s == "all" || s == "")
    (fun s t => t.status == s) tasks
  let l2 := guardFilter a.priority (fun p => p == "")
    (fun p t => t.priority == p) l1
  let l3 := guardFilter a.due_before (fun _ => false)
    (fun b t => match t.due_date with
      | some d => Date.ltb d b
      | none => false) l2
  let l4 := guardFilter a.due_after (fun _ => false)
    (fun b t => match t.due_date with
      | some d => Date.ltb b d
      | none => false) l3
  let l5 := guardFilter a.due_within_days (fun _ => false)
    (fun n t => match t.due_date with
      | some d => Date.leb today d && Date.leb d (addDays today n)
      | none => false) l4
  let l6 := guardFilter a.scheduled_before (fun _ => false)
    (fun b t => match t.scheduled_date with
      | some d => Date.ltb d b
      | none => false) l5
  let l7 := guardFilter a.scheduled_after (fun _ => false)
    (fun b t => match t.scheduled_date with
      | some d => Date.ltb b d
      | none => false) l6
  let l8 := guardFilter a.scheduled_within_days (fun _ => false)
    (fun n t => match t.scheduled_date with
      | some d => Date.leb today d && Date.leb d (addDays today n)
      | none => false) l7
  let l9 := guardFilter a.has_recurrence (fun _ => false)
    (fun b t => if b then recTruthy t else !recTruthy t) l8
  let l10 := guardFilter a.tag (fun g => g.isEmpty)
    (fun g t => t.tags.contains g) l9
  l10

/-! ## sort_tasks (tasks.py lines 279-315) -/

/-- Stable insertion into a list sorted by the boolean comparator `le`
(`x` goes before the first element it compares `le` to). -/
def insertSorted (le : α → α → Bool) (x : α) : List α → List α
  | [] => [x]
  | y :: ys => if le x y then x :: y :: ys else y :: insertSorted le x ys

/-- Stable sort modelling Python `list.sort` / `sorted` with a key. -/
def sortBy (le : α → α → Bool) : List α → List α
  | [] => []
  | x :: xs => insertSorted le x (sortBy le xs)

/-- Sort key for the due-date branch (only applied to tasks with a due date). -/
def dueKey (t : Task) : Date := t.due_date.getD ⟨0, 0, 0⟩

/-- `priority_order.index` (0-based position; the list always contains the
priority for tasks produced by the parser). -/
def idxOf (x : String) : List String → Nat
  | [] => 0
  | y :: ys => if y = x then 0 else idxOf x ys + 1

def priorityOrder : List String := ["highest", "high", "normal", "low", "lowest"]

def strLe (a b : String) : Bool := !decide (b < a)

/-- `sort_tasks(tasks, sort_by, sort_order)`.  In the due-date branch the
dated tasks are sorted by date (stably, reversed for `"desc"`) and the
dateless tasks are appended after them for `"asc"` but prepended before
them for `"desc"` (the ternary on line 301). -/
def sort_tasks (tasks : List Task) (sort_by sort_order : String) : List Task :=
  let reverse := sort_order == "desc"
  if sort_by = "due_date" then
    let tasksWithDue := tasks.filter (fun t => t.due_date.isSome)
    let tasksWithoutDue := tasks.filter (fun t => !t.due_date.isSome)
    let sorted :=
      if reverse then sortBy (fun a b => Date.leb (dueKey b) (dueKey a)) tasksWithDue
      else sortBy (fun a b => Date.leb (dueKey a) (dueKey b)) tasksWithDue
    if !reverse then sorted ++ tasksWithoutDue else tasksWithoutDue ++ sorted
  else if sort_by = "priority" then
    let ord := if reverse then priorityOrder.reverse else priorityOrder
    sortBy (fun a b =>
      Nat.ble (idxOf (if a.priority = "" then "normal" else a.priority) ord)
              (idxOf (if b.priority = "" then "normal" else b.priority) ord)) tasks
  else if sort_by = "file" then
    if reverse then sortBy (fun a b => strLe b.source_file a.source_file) tasks
    else sortBy (fun a b => strLe a.source_file b.source_file) tasks
  else if sort_by = "line_number" then
    let key := fun (t : Task) => (t.source_file, t.line_number.getD 0)
    let le := fun (x y : String × Nat) =>
      (decide (x.1 < y.1) || (x.1 == y.1 && Nat.ble x.2 y.2))
    if reverse then sortBy (fun a b => le (key b) (key a)) tasks
    else sortBy (fun a b => le (key a) (key b)) tasks
  else tasks

/-! ## File content as character lists; insert_task_in_file
(tasks.py lines 347-409) -/

/-- `splitlines(keepends=True)` (newline-only model). -/
def splitKeepNL : List Char → List (List Char)
  | [] => []
  | c :: rest =>
    if c = '\n' then ['\n'] :: splitKeepNL rest
    else
      match splitKeepNL rest with
      | [] => [[c]]
      | l :: ls => (c :: l) :: ls

/-- `"".join(lines)`. -/
def concatAll : List (List Char) → List Char
  | [] => []
  | l :: ls => l ++ concatAll ls

/-- Per-line reading of the MULTILINE heading regex
`^#+\s+{re.escape(heading)}\s*$`: one-or-more `#`, one-or-more whitespace,
the heading text, optional trailing whitespace, end of line. -/
def lineIsHeading (h : List Char) (l : List Char) : Bool :=
  let core := match l.getLast? with
    | some '\n' => l.dropLast
    | _ => l
  let hashes := core.takeWhile (fun c => c == '#')
  let rest1 := core.drop hashes.length
  let ws := rest1.takeWhile isWS
  let rest2 := rest1.drop ws.length
  !hashes.isEmpty && !ws.isEmpty && decide (stripR rest2 = h)

/-- First line index matching the heading pattern. -/
def findHeadingIdx (h : List Char) : List (List Char) → Option Nat
  | [] => none
  | l :: ls =>
    if lineIsHeading h l then some 0 else (findHeadingIdx h ls).map (· + 1)

/-- Python `list.insert` (clamps an out-of-range index to an append). -/
def insertAtIdx : Nat → List Char → List (List Char) → List (List Char)
  | 0, x, ls => x :: ls
  | _ + 1, x, [] => [x]
  | n + 1, x, l :: ls => l :: insertAtIdx n x ls

/-- `insert_task_in_file(vault_path, file_path, task_line, insert_at, heading)`,
modelled over the target file's content (`none` = the file does not exist).
Returns the new content and the reported line number. -/
def insert_task_in_file (file : Option (List Char)) (task_line : List Char)
    (insert_at : String) (heading : Option (List Char)) : List Char × Nat :=
  match file with
  | none => (task_line ++ ['\n'], 1)
  | some content =>
    let lines := splitKeepNL content
    if insert_at = "end" then
      (concatAll (lines ++ [task_line ++ ['\n']]), lines.length + 1)
    else if insert_at = "top" then
      (concatAll ((task_line ++ ['\n']) :: lines), 1)
    else if insert_at = "after_heading" ∧ (heading.getD []) ≠ [] then
      match findHeadingIdx (heading.getD []) lines with
      | some i =>
        (concatAll (insertAtIdx (i + 1) (task_line ++ ['\n']) lines), i + 2)
      | none =>
        (concatAll (lines ++ [task_line ++ ['\n']]), lines.length + 1)
    else
      (concatAll (lines ++ [task_line ++ ['\n']]), lines.length + 1)

/-! ## create_task_fs_tool (tasks.py lines 497-577) -/

inductive CreateError where
  | badDueDate
  | badScheduledDate
  | badStartDate
  | badRecurrence
deriving DecidableEq, Repr

inductive CreateOutcome where
  | err : CreateError → CreateOutcome
  | ok : Nat → List Char → CreateOutcome
deriving DecidableEq, Repr

/-- `recurrence.strip().lower().startswith("every")`. -/
def startsWithEvery (r : List Char) : Bool :=
  beginsWith ['e', 'v', 'e', 'r', 'y'] (lowerL (stripWS r))

/-- A truthy-guarded date argument: absent or empty strings are skipped,
otherwise `strptime` must succeed (`none` result = raised `ValueError`). -/
def optDateArg : Option (List Char) → Option (Option Date)
  | none => some none
  | some s =>
    if s = [] then some none
    else match pyStrptimeYmd s with
      | some d => some (some d)
      | none => none

/-- `create_task_fs_tool`: validates the date strings in order, then the
recurrence, builds and formats the Task, and only then inserts it into the
file.  On a validation error the file is returned unchanged. -/
def create_task (file : Option (List Char)) (task_content : List Char)
    (priority : String) (due_date scheduled_date start_date : Option (List Char))
    (recurrence : Option (List Char)) (insert_at : String)
    (heading : Option (List Char)) (source_file : String) :
    Option (List Char) × CreateOutcome :=
  match optDateArg due_date with
  | none => (file, .err .badDueDate)
  | some dd =>
    match optDateArg scheduled_date with
    | none => (file, .err .badScheduledDate)
    | some sd =>
      match optDateArg start_date with
      | none => (file, .err .badStartDate)
      | some std =>
        match recurrence with
        | some r =>
          if r ≠ [] ∧ startsWithEvery r = false then
            (file, .err .badRecurrence)
          else
            let task : Task :=
              { content := task_content, status := "incomplete",
                priority := priority, due_date := dd, scheduled_date := sd,
                start_date := std, done_date := none, created_date := none,
                recurrence := some r, tags := [], line_number := none,
                source_file := source_file }
            let line := format_task_line task
            let res := insert_task_in_file file line insert_at heading
            (some res.1, .ok res.2 line)
        | none =>
          let task : Task :=
            { content := task_content, status := "incomplete",
              priority := priority, due_date := dd, scheduled_date := sd,
              start_date := std, done_date := none, created_date := none,
              recurrence := none, tags := [], line_number := none,
              source_file := source_file }
          let line := format_task_line task
          let res := insert_task_in_file file line insert_at heading
          (some res.1, .ok res.2 line)

/-! ## update_task_metadata_fs_tool (tasks.py lines 653-733) -/

/-- The `updates` dictionary: outer `Option` = key present, inner `Option` =
the JSON value may be `null`. -/
structure MetaUpdates where
  priority : Option (Option String) := none
  due_date : Option (Option (List Char)) := none
  scheduled_date : Option (Option (List Char)) := none
  start_date : Option (Option (List Char)) := none
  recurrence : Option (Option (List Char)) := none

/-- tasks.py lines 697-701: a priority update is applied only if the value is
`None` or one of the five priority names; otherwise it is silently skipped. -/
def applyPriorityUpd (t : Task) : Option (Option String) → Task × List String
  | none => (t, [])
  | some none => ({ t with priority := "normal" }, ["priority"])
  | some (some s) =>
    if s = "highest" ∨ s = "high" ∨ s = "normal" ∨ s = "low" ∨ s = "lowest" then
      ({ t with priority := s }, ["priority"])
    else (t, [])

/-- tasks.py lines 703-710 for a single date field: a truthy value is parsed
with `strptime` (raising on failure, modelled as `none`), a falsy value
clears the field; either way the field is recorded as changed. -/
def dateUpdVal (cur : Option Date) :
    Option (Option (List Char)) → Option (Option Date × Bool)
  | none => some (cur, false)
  | some none => some (none, true)
  | some (some s) =>
    if s = [] then some (none, true)
    else match pyStrptimeYmd s with
      | some d => some (some d, true)
      | none => none

/-- tasks.py lines 712-716. -/
def applyRecurrenceUpd (t : Task) : Option (Option (List Char)) → Task × List String
  | none => (t, [])
  | some none => ({ t with recurrence := none }, ["recurrence"])
  | some (some s) =>
    if s ≠ [] ∧ startsWithEvery s then
      ({ t with recurrence := some s }, ["recurrence"])
    else (t, [])

/-- The whole update block (lines 694-716); `none` models an uncaught
`ValueError` from a malformed date string. -/
def apply_updates (t : Task) (u : MetaUpdates) : Option (Task × List String) :=
  let p := applyPriorityUpd t u.priority
  match dateUpdVal p.1.due_date u.due_date with
  | none => none
  | some (nd, ch1) =>
    match dateUpdVal p.1.scheduled_date u.scheduled_date with
    | none => none
    | some (ns, ch2) =>
      match dateUpdVal p.1.start_date u.start_date with
      | none => none
      | some (nst, ch3) =>
        let t1 := p.1
        let t2 := { t1 with due_date := nd, scheduled_date := ns, start_date := nst }
        let r := applyRecurrenceUpd t2 u.recurrence
        some (r.1,
          p.2 ++ (if ch1 then ["due_date"] else []) ++
          (if ch2 then ["scheduled_date"] else []) ++
          (if ch3 then ["start_date"] else []) ++ r.2)

structure UpdateOutcome where
  success : Bool
  newContent : List Char
  updated_line : Option (List Char)
  changes_made : List String
deriving DecidableEq, Repr

/-- `update_task_metadata_fs_tool` over the target file's content. -/
def update_task_metadata (content : List Char) (line_number : Nat)
    (u : MetaUpdates) (source_file : String) : UpdateOutcome :=
  let lines := splitKeepNL content
  if line_number < 1 ∨ line_number > lines.length then
    { success := false, newContent := content, updated_line := none,
      changes_made := [] }
  else
    match parse_task_line (lines.getD (line_number - 1) []) line_number source_file with
    | none =>
      { success := false, newContent := content, updated_line := none,
        changes_made := [] }
    | some t =>
      match apply_updates t u with
      | none =>
        { success := false, newContent := content, updated_line := none,
          changes_made := [] }
      | some (t2, changes) =>
        let nl := format_task_line t2
        { success := true,
          newContent := concatAll (lines.set (line_number - 1) (nl ++ ['\n'])),
          updated_line := some nl, changes_made := changes }

/-! ## search_tasks_fs_tool (tasks.py lines 416-494) -/

structure SearchResult where
  tasks : List Task
  total_found : Nat
  truncated : Bool
deriving DecidableEq, Repr

/-- The scan-filter-sort-truncate core of `search_tasks_fs_tool` (lines
463-494), over an arbitrary vault scan result. -/
def search_tasks (allTasks : List Task) (a : FilterArgs) (today : Date)
    (limit : Nat) (sort_by sort_order : String) : SearchResult :=
  let filteredTasks := filter_tasks allTasks a today
  let sortedTasks := sort_tasks filteredTasks sort_by sort_order
  { tasks := sortedTasks.take limit, total_found := sortedTasks.length,
    truncated := decide (sortedTasks.length > limit) }

/-! ## Concrete inputs used by counterexamples and witnesses -/

/-- A Task populated with a created date and a recurrence. -/
def c1Task : Task :=
  { content := ['C', 'a', 'l', 'l'], status := "incomplete", priority := "normal",
    due_date := none, scheduled_date := none, start_date := none,
    done_date := none, created_date := some ⟨2025, 1, 2⟩,
    recurrence := some ['e', 'v', 'e', 'r', 'y', ' ', 'w', 'e', 'e', 'k'],
    tags := [], line_number := some 1, source_file := "n.md" }

/-- A task with no due date. -/
def exTaskNoDue : Task :=
  { content := ['n', 'o', 'd', 'u', 'e'], status := "incomplete",
    priority := "normal", due_date := none, scheduled_date := none,
    start_date := none, done_date := none, created_date := none,
    recurrence := none, tags := [], line_number := some 1, source_file := "a.md" }

/-- A task due 2025-01-01. -/
def exTaskDue : Task :=
  { exTaskNoDue with
      content := ['d', 'a', 't', 'e', 'd'],
      due_date := some ⟨2025, 1, 1⟩ }

/-- `- [ ] A 📅 2025-01-01 B` — a due token followed by further text. -/
def c3Line : List Char :=
  ['-', ' ', '[', ' ', ']', ' ', 'A', ' ', '📅', ' ',
   '2', '0', '2', '5', '-', '0', '1', '-', '0', '1', ' ', 'B']

/-- `- [ ] A 📅 2025-01-01 ✅ 2025-13-01` — a valid due token followed by a
malformed done token. -/
def c5Line : List Char :=
  ['-', ' ', '[', ' ', ']', ' ', 'A', ' ', '📅', ' ',
   '2', '0', '2', '5', '-', '0', '1', '-', '0', '1', ' ', '✅', ' ',
   '2', '0', '2', '5', '-', '1', '3', '-', '0', '1']

/-- A fully dated task (no created date, no recurrence) for the round-trip
witness. -/
def c1WitnessTask : Task :=
  { content := ['B', 'u', 'y', ' ', 'm', 'i', 'l', 'k'], status := "completed",
    priority := "high", due_date := some ⟨2025, 3, 1⟩,
    scheduled_date := some ⟨2025, 2, 28⟩, start_date := some ⟨2025, 2, 20⟩,
    done_date := some ⟨2025, 3, 2⟩, created_date := none, recurrence := none,
    tags := [], line_number := some 3, source_file := "w.md" }

/-- A one-task file `- [ ] A` for the update witness. -/
def c10Content : List Char := ['-', ' ', '[', ' ', ']', ' ', 'A', '\n']

/-- Updates carrying an invalid priority value plus a valid due date. -/
def c10Updates : MetaUpdates :=
  { priority := some (some "urgent"),
    due_date := some (some ['2', '0', '2', '5', '-', '0', '1', '-', '0', '2']) }

/-- The ten metadata emoji of the modelled patterns. -/
def metaEmojis : List Char :=
  ['✅', '📅', '⏳', '🛫', '➕', '⏫', '🔼', '🔽', '⏬', '🔁']

/-- A string free of every metadata emoji (the cleanliness a parsed
`content` always has). -/
def Clean (s : List Char) : Prop := ∀ c ∈ metaEmojis, c ∉ s

instance (s : List Char) : Decidable (Clean s) := by
  unfold Clean; infer_instance

/-- Validity of an optional date. -/
def optValidDate : Option Date → Bool
  | some d => validDate d
  | none => true

/-! # Lemmas -/

/-! ## Whitespace stripping -/

theorem dropWhile_length_le (p : Char → Bool) (l : List Char) :
    (l.dropWhile p).length ≤ l.length := by
  induction l with
  | nil => simp
  | cons a l ih =>
    rw [List.dropWhile_cons]
    split
    · exact Nat.le_succ_of_le ih
    · simp

theorem mem_of_mem_dropWhile (p : Char → Bool) (c : Char) (l : List Char)
    (h : c ∈ l.dropWhile p) : c ∈ l := by
  induction l with
  | nil => simp at h
  | cons a l ih =>
    rw [List.dropWhile_cons] at h
    split at h
    · exact List.mem_cons.mpr (Or.inr (ih h))
    · exact h

theorem stripR_append_ws (X : List Char) (c : Char) (h : isWS c = true) :
    stripR (X ++ [c]) = stripR X := by
  simp [stripR, List.dropWhile_cons, h]

theorem stripR_eq_self_of_last (X : List Char) (c : Char)
    (h : X.getLast? = some c) (hc : isWS c = false) : stripR X = X := by
  have hrev : X.reverse.head? = some c := by rw [List.head?_reverse]; exact h
  cases hX : X.reverse with
  | nil => rw [hX] at hrev; simp at hrev
  | cons a r =>
    rw [hX] at hrev
    simp only [List.head?_cons, Option.some.injEq] at hrev
    subst hrev
    unfold stripR
    rw [hX, List.dropWhile_cons, hc]
    simp only [if_false, Bool.false_eq_true]
    rw [← hX, List.reverse_reverse]

theorem stripR_self_last (X : List Char) (h : stripR X = X) (hne : X ≠ []) :
    ∃ c, X.getLast? = some c ∧ isWS c = false := by
  cases hX : X.reverse with
  | nil =>
    exact absurd (by simpa using congrArg List.reverse hX) hne
  | cons a r =>
    refine ⟨a, ?_, ?_⟩
    · rw [← List.head?_reverse, hX]; rfl
    · by_contra hw
      simp only [Bool.not_eq_false] at hw
      unfold stripR at h
      rw [hX, List.dropWhile_cons, hw] at h
      have h1 := congrArg List.length h
      have h2 := dropWhile_length_le isWS r
      have h3 : X.length = r.length + 1 := by
        have := congrArg List.length hX
        simpa using this
      simp only [List.length_reverse] at h1
      simp at h1
      omega

theorem stripL_cons_of_not_ws (c : Char) (rest : List Char) (h : isWS c = false) :
    stripL (c :: rest) = c :: rest := by
  simp [stripL, List.dropWhile_cons, h]

theorem stripL_head_not_ws (X : List Char) (h : stripL X = X) (hne : X ≠ []) :
    ∃ c r, X = c :: r ∧ isWS c = false := by
  cases X with
  | nil => exact absurd rfl hne
  | cons a r =>
    refine ⟨a, r, rfl, ?_⟩
    by_contra hw
    simp only [Bool.not_eq_false] at hw
    simp only [stripL, List.dropWhile_cons, hw, if_true] at h
    have h1 := dropWhile_length_le isWS r
    have h2 := congrArg List.length h
    simp at h2
    omega

theorem stripR_append_of_last (X Y : List Char) (c : Char)
    (h : Y.getLast? = some c) (hc : isWS c = false) :
    stripR (X ++ Y) = X ++ Y :=
  stripR_eq_self_of_last _ c (by rw [List.getLast?_append, h]; rfl) hc

theorem stripWS_eq_self (X : List Char) (h1 : stripL X = X) (h2 : stripR X = X) :
    stripWS X = X := by
  unfold stripWS
  rw [h2, h1]

theorem mem_stripR (c : Char) (X : List Char) (h : c ∈ stripR X) : c ∈ X := by
  unfold stripR at h
  rw [List.mem_reverse] at h
  have := mem_of_mem_dropWhile isWS c X.reverse h
  rwa [List.mem_reverse] at this

theorem mem_stripL (c : Char) (X : List Char) (h : c ∈ stripL X) : c ∈ X :=
  mem_of_mem_dropWhile isWS c X h

theorem mem_stripWS (c : Char) (X : List Char) (h : c ∈ stripWS X) : c ∈ X :=
  mem_stripR c X (mem_stripL c (stripR X) h)

/-! ## Digit and date rendering lemmas -/

theorem isDigit_digitChar (n : Nat) : isDigit (digitChar n) = true := by
  unfold digitChar
  split_ifs <;> decide

theorem isWS_digitChar (n : Nat) : isWS (digitChar n) = false := by
  unfold digitChar
  split_ifs <;> decide

theorem not_ws_of_digit (c : Char) (h : isDigit c = true) : isWS c = false := by
  by_contra hw
  simp only [Bool.not_eq_false] at hw
  unfold isWS at hw
  simp only [Bool.or_eq_true, beq_iff_eq] at hw
  rcases hw with ((h1 | h1) | h1) | h1 <;> rw [h1] at h <;> exact absurd h (by decide)

theorem digitVal_digitChar (n : Nat) (h : n < 10) : digitVal (digitChar n) = n := by
  unfold digitChar
  split_ifs with h0 h1 h2 h3 h4 h5 h6 h7 h8
  · subst h0; decide
  · subst h1; decide
  · subst h2; decide
  · subst h3; decide
  · subst h4; decide
  · subst h5; decide
  · subst h6; decide
  · subst h7; decide
  · subst h8; decide
  · have h9 : n = 9 := by omega
    subst h9; decide

/-- `fmtDate` written as explicit characters. -/
theorem fmtDate_chars (dt : Date) :
    fmtDate dt =
      [digitChar (dt.year / 1000 % 10), digitChar (dt.year / 100 % 10),
       digitChar (dt.year / 10 % 10), digitChar (dt.year % 10), '-',
       digitChar (dt.month / 10 % 10), digitChar (dt.month % 10), '-',
       digitChar (dt.day / 10 % 10), digitChar (dt.day % 10)] := rfl

theorem fmtDate_getLast (dt : Date) :
    (fmtDate dt).getLast? = some (digitChar (dt.day % 10)) := by
  rw [fmtDate_chars]; rfl

theorem not_mem_fmtDate (c : Char) (dt : Date) (hdig : isDigit c = false)
    (hdash : c ≠ '-') : c ∉ fmtDate dt := by
  rw [fmtDate_chars]
  intro hmem
  simp only [List.mem_cons, List.not_mem_nil, or_false] at hmem
  rcases hmem with h | h | h | h | h | h | h | h | h | h <;>
    first
      | (exact hdash h)
      | (rw [h] at hdig; rw [isDigit_digitChar] at hdig; exact Bool.true_eq_false.mp hdig)

theorem dateShapeAt_fmtDate (dt : Date) (r : List Char) :
    dateShapeAt (fmtDate dt ++ r) = some (fmtDate dt) := by
  rw [fmtDate_chars]
  simp [dateShapeAt, isDigit_digitChar]

theorem dropWhile_ws_fmtDate (dt : Date) (r : List Char) :
    (fmtDate dt ++ r).dropWhile isWS = fmtDate dt ++ r := by
  rw [fmtDate_chars]
  simp [List.dropWhile_cons, isWS_digitChar]

theorem dateOfShaped_fmtDate (dt : Date) (hy : dt.year ≤ 9999)
    (hm : dt.month ≤ 99) (hd : dt.day ≤ 99) :
    dateOfShaped (fmtDate dt) =
      if validYMD dt.year dt.month dt.day then some dt else none := by
  obtain ⟨y, m, d⟩ := dt
  simp only at hy hm hd
  rw [fmtDate_chars]
  simp only [dateOfShaped]
  have e1 : digitVal (digitChar (y / 1000 % 10)) = y / 1000 % 10 :=
    digitVal_digitChar _ (Nat.mod_lt _ (by omega))
  have e2 : digitVal (digitChar (y / 100 % 10)) = y / 100 % 10 :=
    digitVal_digitChar _ (Nat.mod_lt _ (by omega))
  have e3 : digitVal (digitChar (y / 10 % 10)) = y / 10 % 10 :=
    digitVal_digitChar _ (Nat.mod_lt _ (by omega))
  have e4 : digitVal (digitChar (y % 10)) = y % 10 :=
    digitVal_digitChar _ (Nat.mod_lt _ (by omega))
  have e5 : digitVal (digitChar (m / 10 % 10)) = m / 10 % 10 :=
    digitVal_digitChar _ (Nat.mod_lt _ (by omega))
  have e6 : digitVal (digitChar (m % 10)) = m % 10 :=
    digitVal_digitChar _ (Nat.mod_lt _ (by omega))
  have e7 : digitVal (digitChar (d / 10 % 10)) = d / 10 % 10 :=
    digitVal_digitChar _ (Nat.mod_lt _ (by omega))
  have e8 : digitVal (digitChar (d % 10)) = d % 10 :=
    digitVal_digitChar _ (Nat.mod_lt _ (by omega))
  rw [e1, e2, e3, e4, e5, e6, e7, e8]
  have hy2 : y / 1000 % 10 * 1000 + y / 100 % 10 * 100 + y / 10 % 10 * 10 + y % 10 = y := by
    omega
  have hm2 : m / 10 % 10 * 10 + m % 10 = m := by omega
  have hd2 : d / 10 % 10 * 10 + d % 10 = d := by omega
  rw [hy2, hm2, hd2]

theorem dateOfShaped_fmtDate_valid (dt : Date) (hv : validDate dt = true) :
    dateOfShaped (fmtDate dt) = some dt := by
  have hb : dt.year ≤ 9999 ∧ dt.month ≤ 99 ∧ dt.day ≤ 99 := by
    unfold validDate validYMD at hv
    simp only [Bool.and_eq_true, decide_eq_true_eq] at hv
    refine ⟨by omega, by omega, ?_⟩
    have := hv.2
    have hdm : daysInMonth dt.year dt.month ≤ 31 := by
      unfold daysInMonth
      split_ifs <;> omega
    omega
  rw [dateOfShaped_fmtDate dt hb.1 hb.2.1 hb.2.2]
  unfold validDate at hv
  rw [hv]
  rfl

theorem dateOfShaped_fmtDate_invalid (dt : Date) (hy : dt.year ≤ 9999)
    (hm : dt.month ≤ 99) (hd : dt.day ≤ 99) (hv : validDate dt = false) :
    dateOfShaped (fmtDate dt) = none := by
  rw [dateOfShaped_fmtDate dt hy hm hd]
  unfold validDate at hv
  rw [hv]
  rfl

/-! ## findDateToken / stripDateStep lemmas -/

theorem findDateToken_not_mem (e : Char) (s : List Char) (h : e ∉ s) :
    findDateToken e s = none := by
  induction s with
  | nil => rfl
  | cons c rest ih =>
    have hce : ¬ c = e := fun hc => h (hc ▸ List.mem_cons_self c rest)
    have hrest : e ∉ rest := fun hr => h (List.mem_cons.mpr (Or.inr hr))
    simp only [findDateToken, hce, if_false, ih hrest]
    rfl

theorem findDateToken_append_shift (e : Char) (X r : List Char) (h : e ∉ X) :
    findDateToken e (X ++ r) =
      (findDateToken e r).map (fun p => (p.1 + X.length, p.2)) := by
  induction X with
  | nil =>
    cases hr : findDateToken e r with
    | none => simp [hr]
    | some p => simp [hr]
  | cons c X ih =>
    have hce : ¬ c = e := fun hc => h (hc ▸ List.mem_cons_self c X)
    have hX : e ∉ X := fun hr => h (List.mem_cons.mpr (Or.inr hr))
    simp only [List.cons_append, findDateToken, hce, if_false, List.append_eq]
    rw [ih hX]
    cases findDateToken e r with
    | none => rfl
    | some p =>
      simp only [Option.map_some', List.length_cons, Option.some.injEq,
        Prod.mk.injEq, and_true]
      omega

theorem findDateToken_head (e : Char) (r ds : List Char)
    (h : dateShapeAt (r.dropWhile isWS) = some ds) :
    findDateToken e (e :: r) = some (0, ds) := by
  simp [findDateToken, h]

/-- The strip step on text with no occurrence of the emoji. -/
theorem stripDateStep_not_mem (e : Char) (s : List Char) (h : e ∉ s) :
    stripDateStep e s = (none, s) := by
  unfold stripDateStep
  rw [findDateToken_not_mem e s h]

/-- The strip step on `X ++ " e YYYY-MM-DD" ++ R` with a valid date: the date
is extracted and everything from the emoji on (including `R`) is removed. -/
theorem stripDateStep_token (e : Char) (X R : List Char) (dt : Date)
    (hX : e ∉ X) (he : e ≠ ' ') (hntw : stripR X = X)
    (hv : validDate dt = true) :
    stripDateStep e (X ++ ' ' :: e :: ' ' :: (fmtDate dt ++ R)) =
      (some dt, X) := by
  have hX2 : e ∉ X ++ [' '] := by
    intro hmem
    rcases List.mem_append.mp hmem with h | h
    · exact hX h
    · simp only [List.mem_singleton] at h; exact he h
  have hshape : dateShapeAt ((' ' :: (fmtDate dt ++ R)).dropWhile isWS) =
      some (fmtDate dt) := by
    rw [List.dropWhile_cons]
    have : isWS ' ' = true := by decide
    rw [this]
    simp only [if_true]
    rw [dropWhile_ws_fmtDate, dateShapeAt_fmtDate]
  have harr : X ++ ' ' :: e :: ' ' :: (fmtDate dt ++ R) =
      (X ++ [' ']) ++ e :: (' ' :: (fmtDate dt ++ R)) := by simp
  have hfind : findDateToken e (X ++ ' ' :: e :: ' ' :: (fmtDate dt ++ R)) =
      some (X.length + 1, fmtDate dt) := by
    rw [harr, findDateToken_append_shift e (X ++ [' ']) _ hX2,
        findDateToken_head e _ _ hshape]
    simp
  unfold stripDateStep
  rw [hfind]
  dsimp only
  rw [dateOfShaped_fmtDate_valid dt hv]
  dsimp only
  have htake : (X ++ ' ' :: e :: ' ' :: (fmtDate dt ++ R)).take (X.length + 1) =
      X ++ [' '] := by
    rw [harr]
    have : (X ++ [' ']).length = X.length + 1 := by simp
    exact List.take_left' this
  rw [htake, stripR_append_ws X ' ' (by decide), hntw]

/-- The strip step on `X ++ " e YYYY-MM-DD"` whose date string is shaped but
not a valid calendar date: the field stays unset and the text untouched. -/
theorem stripDateStep_token_invalid (e : Char) (X : List Char) (dt : Date)
    (hX : e ∉ X) (he : e ≠ ' ')
    (hy : dt.year ≤ 9999) (hm : dt.month ≤ 99) (hd : dt.day ≤ 99)
    (hv : validDate dt = false) :
    stripDateStep e (X ++ ' ' :: e :: ' ' :: fmtDate dt) =
      (none, X ++ ' ' :: e :: ' ' :: fmtDate dt) := by
  have hX2 : e ∉ X ++ [' '] := by
    intro hmem
    rcases List.mem_append.mp hmem with h | h
    · exact hX h
    · simp only [List.mem_singleton] at h; exact he h
  have hshape : dateShapeAt ((' ' :: (fmtDate dt ++ [])).dropWhile isWS) =
      some (fmtDate dt) := by
    rw [List.dropWhile_cons]
    have : isWS ' ' = true := by decide
    rw [this]
    simp only [if_true]
    rw [dropWhile_ws_fmtDate, dateShapeAt_fmtDate]
  have harr : X ++ ' ' :: e :: ' ' :: fmtDate dt =
      (X ++ [' ']) ++ e :: (' ' :: (fmtDate dt ++ [])) := by simp
  have hfind : findDateToken e (X ++ ' ' :: e :: ' ' :: fmtDate dt) =
      some (X.length + 1, fmtDate dt) := by
    rw [harr, findDateToken_append_shift e (X ++ [' ']) _ hX2,
        findDateToken_head e _ _ hshape]
    simp
  unfold stripDateStep
  rw [hfind]
  dsimp only
  rw [dateOfShaped_fmtDate_invalid dt hy hm hd hv]

/-! ## Priority and recurrence step lemmas -/

def isPrioEmoji (c : Char) : Prop := c = '⏫' ∨ c = '🔼' ∨ c = '🔽' ∨ c = '⏬'

theorem findPrioIdx_not_mem (s : List Char)
    (h : ∀ c ∈ s, ¬ isPrioEmoji c) : findPrioIdx s = none := by
  induction s with
  | nil => rfl
  | cons c rest ih =>
    have hc := h c (List.mem_cons_self c rest)
    unfold isPrioEmoji at hc
    simp only [findPrioIdx, hc, if_false]
    rw [ih (fun x hx => h x (List.mem_cons.mpr (Or.inr hx)))]
    rfl

theorem stripPriorityStep_not_mem (s : List Char)
    (h : ∀ c ∈ s, ¬ isPrioEmoji c) : stripPriorityStep s = ("normal", s) := by
  unfold stripPriorityStep
  rw [findPrioIdx_not_mem s h]

theorem findPrioIdx_append_shift (X r : List Char)
    (h : ∀ c ∈ X, ¬ isPrioEmoji c) :
    findPrioIdx (X ++ r) = (findPrioIdx r).map (fun p => (p.1 + X.length, p.2)) := by
  induction X with
  | nil =>
    cases hr : findPrioIdx r with
    | none => simp [hr]
    | some p => simp [hr]
  | cons c X ih =>
    have hc := h c (List.mem_cons_self c X)
    unfold isPrioEmoji at hc
    simp only [List.cons_append, findPrioIdx, hc, if_false, List.append_eq]
    rw [ih (fun x hx => h x (List.mem_cons.mpr (Or.inr hx)))]
    cases findPrioIdx r with
    | none => rfl
    | some p =>
      simp only [Option.map_some', List.length_cons, Option.some.injEq,
        Prod.mk.injEq, and_true]
      omega

theorem stripPriorityStep_token (X : List Char) (e : Char)
    (hX : ∀ c ∈ X, ¬ isPrioEmoji c) (hntw : stripR X = X)
    (he : isPrioEmoji e) :
    stripPriorityStep (X ++ [' ', e]) = (emojiPrio e, X) := by
  have hX2 : ∀ c ∈ X ++ [' '], ¬ isPrioEmoji c := by
    intro c hc
    rcases List.mem_append.mp hc with h | h
    · exact hX c h
    · simp only [List.mem_singleton] at h
      subst h
      unfold isPrioEmoji
      rintro (h | h | h | h) <;> exact absurd h (by decide)
  have harr : X ++ [' ', e] = (X ++ [' ']) ++ [e] := by simp
  have hfind : findPrioIdx (X ++ [' ', e]) = some (X.length + 1, e) := by
    rw [harr, findPrioIdx_append_shift (X ++ [' ']) [e] hX2]
    unfold isPrioEmoji at he
    simp only [findPrioIdx, he, if_true, Option.map_some', List.length_append,
      List.length_cons, List.length_nil, Option.some.injEq, Prod.mk.injEq, and_true]
    omega
  unfold stripPriorityStep
  rw [hfind]
  dsimp only
  have htake : (X ++ [' ', e]).take (X.length + 1) = X ++ [' '] := by
    rw [harr]
    have : (X ++ [' ']).length = X.length + 1 := by simp
    exact List.take_left' this
  rw [htake, stripR_append_ws X ' ' (by decide), hntw]

theorem findRecIdx_not_mem (s : List Char) (h : '🔁' ∉ s) :
    findRecIdx s = none := by
  induction s with
  | nil => rfl
  | cons c rest ih =>
    have hc : ¬ c = '🔁' := fun hc => h (hc ▸ List.mem_cons_self c rest)
    simp only [findRecIdx, hc, if_false]
    rw [ih (fun hr => h (List.mem_cons.mpr (Or.inr hr)))]
    rfl

theorem stripRecurrenceStep_not_mem (s : List Char) (h : '🔁' ∉ s) :
    stripRecurrenceStep s = (none, s) := by
  unfold stripRecurrenceStep
  rw [findRecIdx_not_mem s h]

/-! ## Membership facts about the formatted parts -/

theorem mem_prioPart (c : Char) (p : String) (h : c ∈ prioPart p) :
    c = ' ' ∨ isPrioEmoji c := by
  unfold prioPart at h
  unfold isPrioEmoji
  split_ifs at h <;> simp only [List.mem_cons, List.not_mem_nil, or_false] at h <;> tauto

theorem mem_datePart (c : Char) (e : Char) (od : Option Date)
    (h : c ∈ datePart e od) :
    c = ' ' ∨ c = e ∨ c = '-' ∨ isDigit c = true := by
  cases od with
  | none => simp [datePart] at h
  | some dt =>
    simp only [datePart, List.mem_cons] at h
    rcases h with h | h | h | h
    · exact Or.inl h
    · exact Or.inr (Or.inl h)
    · exact Or.inl h
    · rw [fmtDate_chars] at h
      simp only [List.mem_cons, List.not_mem_nil, or_false] at h
      rcases h with h | h | h | h | h | h | h | h | h | h <;>
        first
          | (exact Or.inr (Or.inr (Or.inl h)))
          | (exact Or.inr (Or.inr (Or.inr (h ▸ isDigit_digitChar _))))

theorem mem_recPart (c : Char) (o : Option (List Char)) (h : c ∈ recPart o) :
    c = ' ' ∨ c = '🔁' ∨ c ∈ o.getD [] := by
  cases o with
  | none => simp [recPart] at h
  | some r =>
    simp only [recPart] at h
    split_ifs at h with hr
    · simp at h
    · simp only [List.mem_cons] at h
      rcases h with h | h | h | h
      · exact Or.inl h
      · exact Or.inr (Or.inl h)
      · exact Or.inl h
      · exact Or.inr (Or.inr h)

/-! ## Trailing-whitespace facts about the formatted parts -/

theorem stripR_append_pair (X : List Char) (a e : Char) (he : isWS e = false) :
    stripR (X ++ [a, e]) = X ++ [a, e] :=
  stripR_eq_self_of_last _ e (by rw [List.getLast?_append]; rfl) he

theorem ntw_append_prioPart (X : List Char) (p : String) (h : stripR X = X) :
    stripR (X ++ prioPart p) = X ++ prioPart p := by
  unfold prioPart
  split_ifs
  · exact stripR_append_pair X ' ' '⏫' (by decide)
  · exact stripR_append_pair X ' ' '🔼' (by decide)
  · exact stripR_append_pair X ' ' '🔽' (by decide)
  · exact stripR_append_pair X ' ' '⏬' (by decide)
  · simpa using h

theorem ntw_append_datePart (X : List Char) (e : Char) (od : Option Date)
    (h : stripR X = X) :
    stripR (X ++ datePart e od) = X ++ datePart e od := by
  cases od with
  | none => simpa [datePart] using h
  | some dt =>
    refine stripR_eq_self_of_last _ (digitChar (dt.day % 10)) ?_ (isWS_digitChar _)
    rw [List.getLast?_append]
    have : (datePart e (some dt)).getLast? = some (digitChar (dt.day % 10)) := by
      simp only [datePart]
      rw [fmtDate_chars]
      rfl
    rw [this]
    rfl

instance (c : Char) : Decidable (isPrioEmoji c) := by
  unfold isPrioEmoji; infer_instance

theorem getLast?_append_of_some (X Y : List Char) (c : Char)
    (h : Y.getLast? = some c) : (X ++ Y).getLast? = some c := by
  rw [List.getLast?_append, h]; rfl

/-- None of the metadata emoji is a space, a dash or a digit. -/
theorem metaEmoji_side : ∀ c ∈ metaEmojis, c ≠ ' ' ∧ c ≠ '-' ∧ isDigit c = false := by
  intro c h
  simp only [metaEmojis, List.mem_cons, List.not_mem_nil, or_false] at h
  rcases h with h | h | h | h | h | h | h | h | h | h <;> subst h <;>
    exact ⟨by decide, by decide, by decide⟩

theorem not_mem_prioPart_of (c : Char) (p : String) (h1 : c ≠ ' ')
    (h2 : ¬ isPrioEmoji c) : c ∉ prioPart p := by
  intro hm
  rcases mem_prioPart c p hm with h | h
  · exact h1 h
  · exact h2 h

theorem not_mem_datePart_of_ne (c e : Char) (od : Option Date) (h1 : c ≠ ' ')
    (h2 : c ≠ e) (h3 : c ≠ '-') (h4 : isDigit c = false) :
    c ∉ datePart e od := by
  intro hm
  rcases mem_datePart c e od hm with h | h | h | h
  · exact h1 h
  · exact h2 h
  · exact h3 h
  · rw [h4] at h; exact Bool.false_ne_true h

/-- A date strip step applied to text followed by its own (optional)
formatted token: the step recovers exactly the optional date and leaves
exactly the preceding text. -/
theorem stripDateStep_optPart (e : Char) (X : List Char) (od : Option Date)
    (hX : e ∉ X) (he : e ≠ ' ') (hntw : stripR X = X)
    (hv : optValidDate od = true) :
    stripDateStep e (X ++ datePart e od) = (od, X) := by
  cases od with
  | none => simpa [datePart] using stripDateStep_not_mem e X hX
  | some dt =>
    have hvd : validDate dt = true := by simpa [optValidDate] using hv
    have := stripDateStep_token e X [] dt hX he hntw hvd
    simpa [datePart] using this

/-- The checkbox-and-strip phase of `parse_task_line` on a line of the shape
the formatter produces. -/
theorem parse_line_shape (sc : Char) (body : List Char) (n : Nat) (f : String)
    (hsc : sc = ' ' ∨ sc = 'x' ∨ sc = 'X')
    (hL : stripL body = body) (hR : stripR body = body) (hne : body ≠ []) :
    parse_task_line ('-' :: ' ' :: '[' :: sc :: ']' :: ' ' :: body) n f =
      some { content := stripWS (extractMeta body).rest,
             status := if lowerChar sc = 'x' then "completed" else "incomplete",
             priority := (extractMeta body).priority,
             due_date := (extractMeta body).due_date,
             scheduled_date := (extractMeta body).scheduled_date,
             start_date := (extractMeta body).start_date,
             done_date := (extractMeta body).done_date,
             created_date := (extractMeta body).created_date,
             recurrence := (extractMeta body).recurrence,
             tags := findTags (extractMeta body).rest,
             line_number := some n, source_file := f } := by
  obtain ⟨clast, hlast, hcws⟩ := stripR_self_last body hR hne
  have hsplit : '-' :: ' ' :: '[' :: sc :: ']' :: ' ' :: body =
      ['-', ' ', '[', sc, ']', ' '] ++ body := by simp
  have hline_r : stripR ('-' :: ' ' :: '[' :: sc :: ']' :: ' ' :: body) =
      '-' :: ' ' :: '[' :: sc :: ']' :: ' ' :: body := by
    rw [hsplit]
    exact stripR_append_of_last _ body clast hlast hcws
  have hline : stripWS ('-' :: ' ' :: '[' :: sc :: ']' :: ' ' :: body) =
      '-' :: ' ' :: '[' :: sc :: ']' :: ' ' :: body := by
    unfold stripWS
    rw [hline_r]
    exact stripL_cons_of_not_ws '-' _ (by decide)
  have hbody : stripWS body = body := stripWS_eq_self body hL hR
  unfold parse_task_line
  rw [hline]
  rcases hsc with h | h | h <;> subst h <;> simp [checkboxMatch, hbody]

/-- `extractMeta` applied to the body `format_task_line` builds for a clean
task with no created date and no recurrence: every strip step recovers its
own field. -/
theorem extractMeta_format (C : List Char) (p : String)
    (sd scd dd dnd : Option Date)
    (hC : Clean C) (hntw : stripR C = C)
    (hp : p = "highest" ∨ p = "high" ∨ p = "normal" ∨ p = "low" ∨ p = "lowest")
    (h1 : optValidDate sd = true) (h2 : optValidDate scd = true)
    (h3 : optValidDate dd = true) (h4 : optValidDate dnd = true) :
    extractMeta (C ++ prioPart p ++ datePart '🛫' sd ++ datePart '⏳' scd ++
      datePart '📅' dd ++ datePart '✅' dnd) =
      { done_date := dnd, due_date := dd, scheduled_date := scd,
        start_date := sd, created_date := none, priority := p,
        recurrence := none, rest := C } := by
  have hprioC : ∀ c ∈ C, ¬ isPrioEmoji c := by
    intro c hc hpe
    rcases hpe with h | h | h | h <;> subst h
    · exact hC '⏫' (by decide) hc
    · exact hC '🔼' (by decide) hc
    · exact hC '🔽' (by decide) hc
    · exact hC '⏬' (by decide) hc
  have hside : ∀ c ∈ metaEmojis, c ≠ ' ' ∧ c ≠ '-' ∧ isDigit c = false := by
    intro c h
    simp only [metaEmojis, List.mem_cons, List.not_mem_nil, or_false] at h
    rcases h with h | h | h | h | h | h | h | h | h | h <;> subst h <;>
      exact ⟨by decide, by decide, by decide⟩
  have hntw0 : stripR (C ++ prioPart p) = C ++ prioPart p :=
    ntw_append_prioPart C p hntw
  have hntw1 := ntw_append_datePart (C ++ prioPart p) '🛫' sd hntw0
  have hntw2 := ntw_append_datePart (C ++ prioPart p ++ datePart '🛫' sd) '⏳' scd hntw1
  have hntw3 := ntw_append_datePart
    (C ++ prioPart p ++ datePart '🛫' sd ++ datePart '⏳' scd) '📅' dd hntw2
  have hm0 : ∀ c ∈ metaEmojis, ¬ isPrioEmoji c → c ∉ C ++ prioPart p := by
    intro c hcm hcp hmem
    rcases List.mem_append.mp hmem with h | h
    · exact hC c hcm h
    · rcases mem_prioPart c p h with h | h
      · exact (hside c hcm).1 h
      · exact hcp h
  have hm1 : ∀ c ∈ metaEmojis, ¬ isPrioEmoji c → c ≠ '🛫' →
      c ∉ C ++ prioPart p ++ datePart '🛫' sd := by
    intro c hcm hcp hcs hmem
    rcases List.mem_append.mp hmem with h | h
    · exact hm0 c hcm hcp h
    · exact not_mem_datePart_of_ne c '🛫' sd (hside c hcm).1 hcs
        (hside c hcm).2.1 (hside c hcm).2.2 h
  have hm2 : ∀ c ∈ metaEmojis, ¬ isPrioEmoji c → c ≠ '🛫' → c ≠ '⏳' →
      c ∉ C ++ prioPart p ++ datePart '🛫' sd ++ datePart '⏳' scd := by
    intro c hcm hcp hcs hcc hmem
    rcases List.mem_append.mp hmem with h | h
    · exact hm1 c hcm hcp hcs h
    · exact not_mem_datePart_of_ne c '⏳' scd (hside c hcm).1 hcc
        (hside c hcm).2.1 (hside c hcm).2.2 h
  have hm3 : ∀ c ∈ metaEmojis, ¬ isPrioEmoji c → c ≠ '🛫' → c ≠ '⏳' → c ≠ '📅' →
      c ∉ C ++ prioPart p ++ datePart '🛫' sd ++ datePart '⏳' scd ++
        datePart '📅' dd := by
    intro c hcm hcp hcs hcc hcd hmem
    rcases List.mem_append.mp hmem with h | h
    · exact hm2 c hcm hcp hcs hcc h
    · exact not_mem_datePart_of_ne c '📅' dd (hside c hcm).1 hcd
        (hside c hcm).2.1 (hside c hcm).2.2 h
  have s5 := stripDateStep_optPart '✅'
    (C ++ prioPart p ++ datePart '🛫' sd ++ datePart '⏳' scd ++ datePart '📅' dd)
    dnd (hm3 '✅' (by decide) (by decide) (by decide) (by decide) (by decide))
    (by decide) hntw3 h4
  have s4 := stripDateStep_optPart '📅'
    (C ++ prioPart p ++ datePart '🛫' sd ++ datePart '⏳' scd) dd
    (hm2 '📅' (by decide) (by decide) (by decide) (by decide))
    (by decide) hntw2 h3
  have s3 := stripDateStep_optPart '⏳' (C ++ prioPart p ++ datePart '🛫' sd) scd
    (hm1 '⏳' (by decide) (by decide) (by decide)) (by decide) hntw1 h2
  have s2 := stripDateStep_optPart '🛫' (C ++ prioPart p) sd
    (hm0 '🛫' (by decide) (by decide)) (by decide) hntw0 h1
  have s1 : stripDateStep '➕' (C ++ prioPart p) = (none, C ++ prioPart p) :=
    stripDateStep_not_mem '➕' _ (hm0 '➕' (by decide) (by decide))
  have s6 : stripPriorityStep (C ++ prioPart p) = (p, C) := by
    rcases hp with h | h | h | h | h <;> subst h
    · have hpp : prioPart "highest" = [' ', '⏫'] := by decide
      rw [hpp]
      have := stripPriorityStep_token C '⏫' hprioC hntw (by decide)
      rwa [show emojiPrio '⏫' = "highest" from by decide] at this
    · have hpp : prioPart "high" = [' ', '🔼'] := by decide
      rw [hpp]
      have := stripPriorityStep_token C '🔼' hprioC hntw (by decide)
      rwa [show emojiPrio '🔼' = "high" from by decide] at this
    · have hpp : prioPart "normal" = [] := by decide
      rw [hpp, List.append_nil]
      exact stripPriorityStep_not_mem C hprioC
    · have hpp : prioPart "low" = [' ', '🔽'] := by decide
      rw [hpp]
      have := stripPriorityStep_token C '🔽' hprioC hntw (by decide)
      rwa [show emojiPrio '🔽' = "low" from by decide] at this
    · have hpp : prioPart "lowest" = [' ', '⏬'] := by decide
      rw [hpp]
      have := stripPriorityStep_token C '⏬' hprioC hntw (by decide)
      rwa [show emojiPrio '⏬' = "lowest" from by decide] at this
  have s7 : stripRecurrenceStep C = (none, C) :=
    stripRecurrenceStep_not_mem C (hC '🔁' (by decide))
  simp only [extractMeta, s5, s4, s3, s2, s1, s6, s7]

/-- The format body of a task with no created date and no recurrence. -/
theorem fmtBody_six (t : Task) (hcre : t.created_date = none)
    (hrec : t.recurrence = none) :
    fmtBody t = t.content ++ prioPart t.priority ++
      datePart '🛫' t.start_date ++ datePart '⏳' t.scheduled_date ++
      datePart '📅' t.due_date ++ datePart '✅' t.done_date := by
  unfold fmtBody
  rw [hcre, hrec]
  simp [datePart, recPart]

/-- Left-strip survives prefixing with a non-whitespace-headed string. -/
theorem stripL_append_of_head (C X : List Char) (hL : stripL C = C)
    (hne : C ≠ []) : stripL (C ++ X) = C ++ X := by
  obtain ⟨c0, r0, hc0, hw0⟩ := stripL_head_not_ws C hL hne
  rw [hc0, List.cons_append]
  exact stripL_cons_of_not_ws c0 _ hw0

/-- Amended C1: the parse-of-format round trip, for a Task whose populated
metadata is drawn from the priority and the four due/scheduled/start/done
dates (created date and recurrence unset), with stripped, emoji-free,
non-empty content, a well-formed status and priority, and valid dates. -/
theorem C1_roundtrip_amended (t : Task) (n : Nat) (f : String)
    (hclean : Clean t.content)
    (hL : stripL t.content = t.content) (hR : stripR t.content = t.content)
    (hne : t.content ≠ [])
    (hst : t.status = "incomplete" ∨ t.status = "completed")
    (hp : t.priority = "highest" ∨ t.priority = "high" ∨ t.priority = "normal" ∨
      t.priority = "low" ∨ t.priority = "lowest")
    (hcre : t.created_date = none) (hrec : t.recurrence = none)
    (h1 : optValidDate t.start_date = true)
    (h2 : optValidDate t.scheduled_date = true)
    (h3 : optValidDate t.due_date = true)
    (h4 : optValidDate t.done_date = true) :
    (parse_task_line (format_task_line t) n f).map coreFields =
      some (coreFields t) := by
  have hbody := fmtBody_six t hcre hrec
  have hBL : stripL (fmtBody t) = fmtBody t := by
    rw [hbody]
    have e1 : t.content ++ prioPart t.priority ++ datePart '🛫' t.start_date ++
        datePart '⏳' t.scheduled_date ++ datePart '📅' t.due_date ++
        datePart '✅' t.done_date =
        t.content ++ (prioPart t.priority ++ datePart '🛫' t.start_date ++
          (datePart '⏳' t.scheduled_date ++ (datePart '📅' t.due_date ++
          datePart '✅' t.done_date))) := by simp [List.append_assoc]
    rw [e1]
    exact stripL_append_of_head t.content _ hL hne
  have hBR : stripR (fmtBody t) = fmtBody t := by
    rw [hbody]
    exact ntw_append_datePart _ '✅' t.done_date
      (ntw_append_datePart _ '📅' t.due_date
        (ntw_append_datePart _ '⏳' t.scheduled_date
          (ntw_append_datePart _ '🛫' t.start_date
            (ntw_append_prioPart _ _ hR))))
  have hBne : fmtBody t ≠ [] := by
    rw [hbody]
    intro hcon
    simp only [List.append_eq_nil] at hcon
    exact hne hcon.1.1.1.1.1
  have hmeta : extractMeta (fmtBody t) =
      { done_date := t.done_date, due_date := t.due_date,
        scheduled_date := t.scheduled_date, start_date := t.start_date,
        created_date := none, priority := t.priority,
        recurrence := none, rest := t.content } := by
    rw [hbody]
    exact extractMeta_format t.content t.priority t.start_date t.scheduled_date
      t.due_date t.done_date hclean hR hp h1 h2 h3 h4
  have hcontent : stripWS t.content = t.content := stripWS_eq_self _ hL hR
  rcases hst with h | h
  · have hfmt : format_task_line t =
        '-' :: ' ' :: '[' :: ' ' :: ']' :: ' ' :: fmtBody t := by
      unfold format_task_line
      rw [h]
      simp
    rw [hfmt, parse_line_shape ' ' (fmtBody t) n f (Or.inl rfl) hBL hBR hBne,
        hmeta]
    simp only [Option.map_some', coreFields, Option.some.injEq]
    rw [hcontent, hcre, hrec, h]
    simp
    decide
  · have hfmt : format_task_line t =
        '-' :: ' ' :: '[' :: 'x' :: ']' :: ' ' :: fmtBody t := by
      unfold format_task_line
      rw [h]
      simp
    rw [hfmt, parse_line_shape 'x' (fmtBody t) n f (Or.inr (Or.inl rfl)) hBL hBR hBne,
        hmeta]
    simp only [Option.map_some', coreFields, Option.some.injEq]
    rw [hcontent, hcre, hrec, h]
    simp
    decide

/-- C1 counterexample: a Task with a created date and a recurrence does not
round-trip — the created-date strip step truncates the line at `➕`,
discarding the `🔁` token, so the re-parsed recurrence is unset. -/
theorem C1_counterexample :
    (parse_task_line (format_task_line c1Task) 1 "n.md").map coreFields ≠
      some (coreFields c1Task) ∧
    (parse_task_line (format_task_line c1Task) 1 "n.md").map Task.recurrence =
      some none ∧
    c1Task.recurrence = some ['e', 'v', 'e', 'r', 'y', ' ', 'w', 'e', 'e', 'k'] := by
  decide

/-- C1 witness: the amended round trip at a concrete task carrying a
priority and all four round-trippable dates. -/
theorem C1_witness :
    (parse_task_line (format_task_line c1WitnessTask) 3 "w.md").map coreFields =
      some (coreFields c1WitnessTask) :=
  C1_roundtrip_amended c1WitnessTask 3 "w.md" (by decide) (by decide) (by decide)
    (by decide) (by decide) (by decide) (by decide) (by decide) (by decide)
    (by decide) (by decide) (by decide)

/-- Amended C3: a date strip step removes the first matched token together
with all text following it (the text is truncated at the match start and
right-stripped); only the text before the match is kept as content. -/
theorem C3_strip_truncates_tail (pre q : List Char) (dt : Date) (n : Nat)
    (f : String)
    (hpre : Clean pre) (hq : Clean q)
    (hL : stripL pre = pre) (hR : stripR pre = pre) (hne : pre ≠ [])
    (hqR : stripR q = q) (hqne : q ≠ [])
    (hv : validDate dt = true) :
    parse_task_line
      ('-' :: ' ' :: '[' :: ' ' :: ']' :: ' ' ::
        (pre ++ ' ' :: '📅' :: ' ' :: (fmtDate dt ++ ' ' :: q))) n f =
      some { content := pre, status := "incomplete", priority := "normal",
             due_date := some dt, scheduled_date := none, start_date := none,
             done_date := none, created_date := none, recurrence := none,
             tags := findTags pre, line_number := some n, source_file := f } := by
  have hprioPre : ∀ c ∈ pre, ¬ isPrioEmoji c := by
    intro c hc hpe
    rcases hpe with h | h | h | h <;> subst h
    · exact hpre '⏫' (by decide) hc
    · exact hpre '🔼' (by decide) hc
    · exact hpre '🔽' (by decide) hc
    · exact hpre '⏬' (by decide) hc
  have hnm : ∀ c ∈ metaEmojis, c ≠ '📅' →
      c ∉ pre ++ ' ' :: '📅' :: ' ' :: (fmtDate dt ++ ' ' :: q) := by
    intro c hcm hcd hmem
    rcases List.mem_append.mp hmem with h | h
    · exact hpre c hcm h
    · simp only [List.mem_cons] at h
      rcases h with h | h | h | h
      · exact (metaEmoji_side c hcm).1 h
      · exact hcd h
      · exact (metaEmoji_side c hcm).1 h
      · rcases List.mem_append.mp h with h | h
        · exact not_mem_fmtDate c dt (metaEmoji_side c hcm).2.2
            (metaEmoji_side c hcm).2.1 h
        · simp only [List.mem_cons] at h
          rcases h with h | h
          · exact (metaEmoji_side c hcm).1 h
          · exact hq c hcm h
  obtain ⟨cq, hcq, hcqw⟩ := stripR_self_last q hqR hqne
  have hql : (' ' :: q).getLast? = some cq := getLast?_append_of_some [' '] q cq hcq
  have hfl : (fmtDate dt ++ ' ' :: q).getLast? = some cq :=
    getLast?_append_of_some _ _ _ hql
  have hTl : (' ' :: '📅' :: ' ' :: (fmtDate dt ++ ' ' :: q)).getLast? = some cq :=
    getLast?_append_of_some [' ', '📅', ' '] _ _ hfl
  have hBlast : (pre ++ ' ' :: '📅' :: ' ' :: (fmtDate dt ++ ' ' :: q)).getLast? =
      some cq := getLast?_append_of_some _ _ _ hTl
  have hBL : stripL (pre ++ ' ' :: '📅' :: ' ' :: (fmtDate dt ++ ' ' :: q)) =
      pre ++ ' ' :: '📅' :: ' ' :: (fmtDate dt ++ ' ' :: q) :=
    stripL_append_of_head pre _ hL hne
  have hBR : stripR (pre ++ ' ' :: '📅' :: ' ' :: (fmtDate dt ++ ' ' :: q)) =
      pre ++ ' ' :: '📅' :: ' ' :: (fmtDate dt ++ ' ' :: q) :=
    stripR_eq_self_of_last _ cq hBlast hcqw
  have hBne : pre ++ ' ' :: '📅' :: ' ' :: (fmtDate dt ++ ' ' :: q) ≠ [] := by
    simp
  have s1 : stripDateStep '✅'
      (pre ++ ' ' :: '📅' :: ' ' :: (fmtDate dt ++ ' ' :: q)) =
      (none, pre ++ ' ' :: '📅' :: ' ' :: (fmtDate dt ++ ' ' :: q)) :=
    stripDateStep_not_mem _ _ (hnm '✅' (by decide) (by decide))
  have s2 : stripDateStep '📅'
      (pre ++ ' ' :: '📅' :: ' ' :: (fmtDate dt ++ ' ' :: q)) = (some dt, pre) :=
    stripDateStep_token '📅' pre (' ' :: q) dt (hpre '📅' (by decide))
      (by decide) hR hv
  have s3 : stripDateStep '⏳' pre = (none, pre) :=
    stripDateStep_not_mem _ _ (hpre '⏳' (by decide))
  have s4 : stripDateStep '🛫' pre = (none, pre) :=
    stripDateStep_not_mem _ _ (hpre '🛫' (by decide))
  have s5 : stripDateStep '➕' pre = (none, pre) :=
    stripDateStep_not_mem _ _ (hpre '➕' (by decide))
  have s6 : stripPriorityStep pre = ("normal", pre) :=
    stripPriorityStep_not_mem pre hprioPre
  have s7 : stripRecurrenceStep pre = (none, pre) :=
    stripRecurrenceStep_not_mem pre (hpre '🔁' (by decide))
  have hmeta : extractMeta (pre ++ ' ' :: '📅' :: ' ' :: (fmtDate dt ++ ' ' :: q)) =
      { done_date := none, due_date := some dt, scheduled_date := none,
        start_date := none, created_date := none, priority := "normal",
        recurrence := none, rest := pre } := by
    simp only [extractMeta, s1, s2, s3, s4, s5, s6, s7]
  rw [parse_line_shape ' ' _ n f (Or.inl rfl) hBL hBR hBne, hmeta]
  have hstat : (if lowerChar ' ' = 'x' then "completed" else "incomplete") =
      "incomplete" := by decide
  simp only [hstat, stripWS_eq_self pre hL hR]

/-- C3 counterexample: in `- [ ] A 📅 2025-01-01 B` the text `B` after the
matched due token is not retained — the parsed content is exactly `A`. -/
theorem C3_counterexample :
    (parse_task_line c3Line 1 "n.md").map Task.content = some ['A'] ∧
    'B' ∈ c3Line ∧
    (parse_task_line c3Line 1 "n.md").map
      (fun t => decide ('B' ∈ t.content)) = some false := by
  decide

/-- C3 witness: the amended per-step behaviour at a concrete line
`- [ ] Task 📅 2025-01-01 extra`. -/
theorem C3_witness :
    parse_task_line
      ('-' :: ' ' :: '[' :: ' ' :: ']' :: ' ' ::
        (['T', 'a', 's', 'k'] ++ ' ' :: '📅' :: ' ' ::
          (fmtDate ⟨2025, 1, 1⟩ ++ ' ' :: ['e', 'x', 't', 'r', 'a']))) 1 "n.md" =
      some { content := ['T', 'a', 's', 'k'], status := "incomplete",
             priority := "normal", due_date := some ⟨2025, 1, 1⟩,
             scheduled_date := none, start_date := none, done_date := none,
             created_date := none, recurrence := none,
             tags := findTags ['T', 'a', 's', 'k'], line_number := some 1,
             source_file := "n.md" } :=
  C3_strip_truncates_tail ['T', 'a', 's', 'k'] ['e', 'x', 't', 'r', 'a']
    ⟨2025, 1, 1⟩ 1 "n.md" (by decide) (by decide) (by decide) (by decide)
    (by decide) (by decide) (by decide) (by decide)

/-- Amended C5: on a line whose only metadata token is a date token that
matches the pattern but is not a valid calendar date, parsing does not fail,
the corresponding field stays unset, the step leaves the text untouched and
the malformed token remains in the content.  (When another, valid token
precedes it in the line, a later strip step may still discard the malformed
token together with the rest of the tail — see the counterexample.) -/
theorem C5_malformed_date_kept (pre : List Char) (dt : Date) (n : Nat)
    (f : String)
    (hpre : Clean pre)
    (hL : stripL pre = pre) (hR : stripR pre = pre) (hne : pre ≠ [])
    (hy : dt.year ≤ 9999) (hm : dt.month ≤ 99) (hd : dt.day ≤ 99)
    (hinv : validDate dt = false) :
    parse_task_line
      ('-' :: ' ' :: '[' :: ' ' :: ']' :: ' ' ::
        (pre ++ ' ' :: '✅' :: ' ' :: fmtDate dt)) n f =
      some { content := pre ++ ' ' :: '✅' :: ' ' :: fmtDate dt,
             status := "incomplete", priority := "normal",
             due_date := none, scheduled_date := none, start_date := none,
             done_date := none, created_date := none, recurrence := none,
             tags := findTags (pre ++ ' ' :: '✅' :: ' ' :: fmtDate dt),
             line_number := some n, source_file := f } := by
  have hnm : ∀ c ∈ metaEmojis, c ≠ '✅' →
      c ∉ pre ++ ' ' :: '✅' :: ' ' :: fmtDate dt := by
    intro c hcm hcd hmem
    rcases List.mem_append.mp hmem with h | h
    · exact hpre c hcm h
    · simp only [List.mem_cons] at h
      rcases h with h | h | h
      · exact (metaEmoji_side c hcm).1 h
      · exact hcd h
      · rcases h with h | h
        · exact (metaEmoji_side c hcm).1 h
        · exact not_mem_fmtDate c dt (metaEmoji_side c hcm).2.2
            (metaEmoji_side c hcm).2.1 h
  have hprio5 : ∀ c ∈ pre ++ ' ' :: '✅' :: ' ' :: fmtDate dt, ¬ isPrioEmoji c := by
    intro c hc hpe
    have hnc : c ∈ metaEmojis ∧ c ≠ '✅' := by
      rcases hpe with h | h | h | h <;> subst h <;> exact ⟨by decide, by decide⟩
    exact hnm c hnc.1 hnc.2 hc
  have hBlast : (pre ++ ' ' :: '✅' :: ' ' :: fmtDate dt).getLast? =
      some (digitChar (dt.day % 10)) := by
    refine getLast?_append_of_some _ _ _ ?_
    exact getLast?_append_of_some [' ', '✅', ' '] _ _ (fmtDate_getLast dt)
  have hBL : stripL (pre ++ ' ' :: '✅' :: ' ' :: fmtDate dt) =
      pre ++ ' ' :: '✅' :: ' ' :: fmtDate dt :=
    stripL_append_of_head pre _ hL hne
  have hBR : stripR (pre ++ ' ' :: '✅' :: ' ' :: fmtDate dt) =
      pre ++ ' ' :: '✅' :: ' ' :: fmtDate dt :=
    stripR_eq_self_of_last _ _ hBlast (isWS_digitChar _)
  have hBne : pre ++ ' ' :: '✅' :: ' ' :: fmtDate dt ≠ [] := by simp
  have s1 : stripDateStep '✅' (pre ++ ' ' :: '✅' :: ' ' :: fmtDate dt) =
      (none, pre ++ ' ' :: '✅' :: ' ' :: fmtDate dt) :=
    stripDateStep_token_invalid '✅' pre dt (hpre '✅' (by decide)) (by decide)
      hy hm hd hinv
  have s2 : stripDateStep '📅' (pre ++ ' ' :: '✅' :: ' ' :: fmtDate dt) =
      (none, pre ++ ' ' :: '✅' :: ' ' :: fmtDate dt) :=
    stripDateStep_not_mem _ _ (hnm '📅' (by decide) (by decide))
  have s3 : stripDateStep '⏳' (pre ++ ' ' :: '✅' :: ' ' :: fmtDate dt) =
      (none, pre ++ ' ' :: '✅' :: ' ' :: fmtDate dt) :=
    stripDateStep_not_mem _ _ (hnm '⏳' (by decide) (by decide))
  have s4 : stripDateStep '🛫' (pre ++ ' ' :: '✅' :: ' ' :: fmtDate dt) =
      (none, pre ++ ' ' :: '✅' :: ' ' :: fmtDate dt) :=
    stripDateStep_not_mem _ _ (hnm '🛫' (by decide) (by decide))
  have s5 : stripDateStep '➕' (pre ++ ' ' :: '✅' :: ' ' :: fmtDate dt) =
      (none, pre ++ ' ' :: '✅' :: ' ' :: fmtDate dt) :=
    stripDateStep_not_mem _ _ (hnm '➕' (by decide) (by decide))
  have s6 : stripPriorityStep (pre ++ ' ' :: '✅' :: ' ' :: fmtDate dt) =
      ("normal", pre ++ ' ' :: '✅' :: ' ' :: fmtDate dt) :=
    stripPriorityStep_not_mem _ hprio5
  have s7 : stripRecurrenceStep (pre ++ ' ' :: '✅' :: ' ' :: fmtDate dt) =
      (none, pre ++ ' ' :: '✅' :: ' ' :: fmtDate dt) :=
    stripRecurrenceStep_not_mem _ (hnm '🔁' (by decide) (by decide))
  have hmeta : extractMeta (pre ++ ' ' :: '✅' :: ' ' :: fmtDate dt) =
      { done_date := none, due_date := none, scheduled_date := none,
        start_date := none, created_date := none, priority := "normal",
        recurrence := none, rest := pre ++ ' ' :: '✅' :: ' ' :: fmtDate dt } := by
    simp only [extractMeta, s1, s2, s3, s4, s5, s6, s7]
  rw [parse_line_shape ' ' _ n f (Or.inl rfl) hBL hBR hBne, hmeta]
  have hstat : (if lowerChar ' ' = 'x' then "completed" else "incomplete") =
      "incomplete" := by decide
  simp only [hstat, stripWS_eq_self _ hBL hBR]

/-- C5 counterexample: in `- [ ] A 📅 2025-01-01 ✅ 2025-13-01` the malformed
done token leaves `done_date` unset, but the valid due token's strip step
then truncates the line at `📅`, so the malformed token does NOT remain in
the content. -/
theorem C5_counterexample :
    (parse_task_line c5Line 1 "n.md").map Task.done_date = some none ∧
    (parse_task_line c5Line 1 "n.md").map Task.content = some ['A'] ∧
    (parse_task_line c5Line 1 "n.md").map
      (fun t => decide ('✅' ∈ t.content)) = some false ∧
    '✅' ∈ c5Line := by
  decide

/-- C5 witness: the amended claim at the concrete line `- [ ] A ✅ 2025-13-01`. -/
theorem C5_witness :
    parse_task_line
      ('-' :: ' ' :: '[' :: ' ' :: ']' :: ' ' ::
        (['A'] ++ ' ' :: '✅' :: ' ' :: fmtDate ⟨2025, 13, 1⟩)) 1 "n.md" =
      some { content := ['A'] ++ ' ' :: '✅' :: ' ' :: fmtDate ⟨2025, 13, 1⟩,
             status := "incomplete", priority := "normal",
             due_date := none, scheduled_date := none, start_date := none,
             done_date := none, created_date := none, recurrence := none,
             tags := findTags (['A'] ++ ' ' :: '✅' :: ' ' :: fmtDate ⟨2025, 13, 1⟩),
             line_number := some 1, source_file := "n.md" } :=
  C5_malformed_date_kept ['A'] ⟨2025, 13, 1⟩ 1 "n.md" (by decide) (by decide)
    (by decide) (by decide) (by decide) (by decide) (by decide) (by decide)

/-- C2: the `sort_order="desc"` branch of `sort_tasks` (the ternary on
tasks.py line 301) returns the dateless group BEFORE the dated group,
contradicting both the spec and the code's own comment on line 297
("Tasks without due dates go to end").  For `"asc"` they do go to the end. -/
theorem C2_sort_desc_dateless_first :
    sort_tasks [exTaskNoDue, exTaskDue] "due_date" "desc" =
      [exTaskNoDue, exTaskDue] ∧
    exTaskNoDue.due_date = none ∧
    exTaskDue.due_date = some ⟨2025, 1, 1⟩ ∧
    sort_tasks [exTaskNoDue, exTaskDue] "due_date" "asc" =
      [exTaskDue, exTaskNoDue] := by
  decide

/-! ## splitKeepNL / insert_task_in_file lemmas -/

theorem concatAll_append (xs ys : List (List Char)) :
    concatAll (xs ++ ys) = concatAll xs ++ concatAll ys := by
  induction xs with
  | nil => rfl
  | cons l ls ih => simp [concatAll, ih]

theorem concatAll_splitKeepNL (s : List Char) : concatAll (splitKeepNL s) = s := by
  induction s with
  | nil => rfl
  | cons c rest ih =>
    unfold splitKeepNL
    split_ifs with h
    · subst h
      simp only [concatAll, List.cons_append, List.nil_append]
      rw [ih]
    · cases hs : splitKeepNL rest with
      | nil =>
        have hrest : rest = [] := by rw [← ih, hs]; rfl
        subst hrest
        simp [concatAll]
      | cons l ls =>
        rw [hs] at ih
        simp only [concatAll] at ih ⊢
        rw [List.cons_append, ih]

theorem splitKeepNL_ne_nil (s : List Char) (h : s ≠ []) : splitKeepNL s ≠ [] := by
  cases s with
  | nil => exact absurd rfl h
  | cons c rest =>
    unfold splitKeepNL
    split_ifs
    · simp
    · cases splitKeepNL rest <;> simp

theorem splitKeepNL_cons_nl (rest : List Char) :
    splitKeepNL ('\n' :: rest) = ['\n'] :: splitKeepNL rest := rfl

theorem splitKeepNL_cons_other (c : Char) (rest : List Char) (hc : ¬ c = '\n') :
    splitKeepNL (c :: rest) =
      match splitKeepNL rest with
      | [] => [[c]]
      | l :: ls => (c :: l) :: ls := by
  have he : splitKeepNL (c :: rest) =
      if c = '\n' then ['\n'] :: splitKeepNL rest
      else
        match splitKeepNL rest with
        | [] => [[c]]
        | l :: ls => (c :: l) :: ls := rfl
  rw [he, if_neg hc]

theorem splitKeepNL_append_nl (s t : List Char)
    (h : s = [] ∨ s.getLast? = some '\n') :
    splitKeepNL (s ++ t) = splitKeepNL s ++ splitKeepNL t := by
  induction s with
  | nil => rfl
  | cons c rest ih =>
    rcases h with h | h
    · exact absurd h (by simp)
    · cases rest with
      | nil =>
        simp only [List.getLast?_singleton, Option.some.injEq] at h
        subst h
        rw [List.cons_append, List.nil_append, splitKeepNL_cons_nl,
            splitKeepNL_cons_nl]
        rfl
      | cons d r2 =>
        rw [List.getLast?_cons_cons] at h
        have ihh := ih (Or.inr h)
        by_cases hc : c = '\n'
        · subst hc
          rw [List.cons_append, splitKeepNL_cons_nl, splitKeepNL_cons_nl, ihh]
          rfl
        · rw [List.cons_append, splitKeepNL_cons_other c _ hc,
              splitKeepNL_cons_other c _ hc, ihh]
          cases hs : splitKeepNL (d :: r2) with
          | nil => exact absurd hs (splitKeepNL_ne_nil _ (by simp))
          | cons l ls => simp

theorem splitKeepNL_single_line (t : List Char) (h : '\n' ∉ t) :
    splitKeepNL (t ++ ['\n']) = [t ++ ['\n']] := by
  induction t with
  | nil => simp [splitKeepNL]
  | cons c r ih =>
    have hc : ¬ c = '\n' := fun e => h (e ▸ List.mem_cons_self c r)
    have hr : '\n' ∉ r := fun e => h (List.mem_cons.mpr (Or.inr e))
    rw [List.cons_append, splitKeepNL_cons_other c _ hc, ih hr]

theorem findHeadingIdx_none (h : List Char) (lines : List (List Char))
    (hall : ∀ l ∈ lines, lineIsHeading h l = false) :
    findHeadingIdx h lines = none := by
  induction lines with
  | nil => rfl
  | cons l ls ih =>
    simp only [findHeadingIdx, hall l (List.mem_cons_self l ls),
      Bool.false_eq_true, if_false]
    rw [ih (fun x hx => hall x (List.mem_cons.mpr (Or.inr hx)))]
    rfl

/-- Amended C4: when no line of the target file matches the heading pattern,
`insert_task_in_file` does not fail — it appends `task + "\n"` to the end of
the file and reports the previous line count plus one; provided the file is
empty or ends with a newline (and the task line has no embedded newline),
the appended text is precisely the new last line, so the reported number is
that line's number.  (Without a trailing newline the appended text joins the
file's old last line — see the counterexample.) -/
theorem C4_heading_missing_appends (content task h : List Char)
    (hnl : content = [] ∨ content.getLast? = some '\n')
    (hmiss : ∀ l ∈ splitKeepNL content, lineIsHeading h l = false)
    (hh : h ≠ []) (htask : '\n' ∉ task) :
    insert_task_in_file (some content) task "after_heading" (some h) =
      (content ++ (task ++ ['\n']), (splitKeepNL content).length + 1) ∧
    splitKeepNL (content ++ (task ++ ['\n'])) =
      splitKeepNL content ++ [task ++ ['\n']] := by
  constructor
  · have hfind : findHeadingIdx h (splitKeepNL content) = none :=
      findHeadingIdx_none h _ hmiss
    unfold insert_task_in_file
    dsimp only
    rw [if_neg (by decide), if_neg (by decide),
        if_pos (⟨rfl, by simpa using hh⟩ :
          ("after_heading" : String) = "after_heading" ∧
            ((some h).getD []) ≠ [])]
    simp only [Option.getD_some]
    rw [hfind, concatAll_append, concatAll_splitKeepNL]
    simp [concatAll]
  · rw [splitKeepNL_append_nl content (task ++ ['\n']) hnl,
        splitKeepNL_single_line task htask]

/-- C4 counterexample: file `"a\nb"` (no trailing newline), heading `H`
absent.  The call reports line number 3, but the resulting file
`"a\nbt\n"` has only two lines and its last line is `"bt"` — the task text
was joined onto the old last line rather than appended as its own line. -/
theorem C4_counterexample :
    (insert_task_in_file (some ['a', '\n', 'b']) ['t'] "after_heading"
      (some ['H'])).2 = 3 ∧
    (insert_task_in_file (some ['a', '\n', 'b']) ['t'] "after_heading"
      (some ['H'])).1 = ['a', '\n', 'b', 't', '\n'] ∧
    (splitKeepNL (insert_task_in_file (some ['a', '\n', 'b']) ['t']
      "after_heading" (some ['H'])).1).length = 2 ∧
    (splitKeepNL (insert_task_in_file (some ['a', '\n', 'b']) ['t']
      "after_heading" (some ['H'])).1).getLast? = some ['b', 't', '\n'] ∧
    (∀ l ∈ splitKeepNL ['a', '\n', 'b'], lineIsHeading ['H'] l = false) := by
  decide

/-- C4 witness: the amended claim at the newline-terminated file `"a\n"`. -/
theorem C4_witness :
    insert_task_in_file (some ['a', '\n']) ['t'] "after_heading" (some ['H']) =
      (['a', '\n'] ++ (['t'] ++ ['\n']), (splitKeepNL ['a', '\n']).length + 1) ∧
    splitKeepNL (['a', '\n'] ++ (['t'] ++ ['\n'])) =
      splitKeepNL ['a', '\n'] ++ [['t'] ++ ['\n']] :=
  C4_heading_missing_appends ['a', '\n'] ['t'] ['H'] (Or.inr (by decide))
    (by decide) (by decide) (by decide)

/-- C8: a call on a file that does not exist creates it with the task line
(plus newline) as its only content and reports line number 1, regardless of
the insertion mode and heading. -/
theorem C8_missing_file_created (task_line : List Char) (insert_at : String)
    (heading : Option (List Char)) :
    insert_task_in_file none task_line insert_at heading =
      (task_line ++ ['\n'], 1) := rfl

/-! ## filter_tasks lemmas and C6 -/

theorem mem_of_mem_guardFilter {α : Type} (o : Option α) (sk : α → Bool)
    (p : α → Task → Bool) (l : List Task) (t : Task)
    (h : t ∈ guardFilter o sk p l) : t ∈ l := by
  cases o with
  | none => exact h
  | some x =>
    simp only [guardFilter] at h
    split_ifs at h
    · exact h
    · exact List.mem_of_mem_filter h

theorem pred_of_mem_guardFilter {α : Type} (x : α) (sk : α → Bool)
    (p : α → Task → Bool) (l : List Task) (t : Task)
    (h : t ∈ guardFilter (some x) sk p l) (hsk : sk x = false) :
    p x t = true := by
  simp only [guardFilter] at h
  rw [hsk] at h
  simp only [Bool.false_eq_true, if_false] at h
  exact List.of_mem_filter h

/-- C6: the `due_before`/`due_after` (and scheduled) filters exclude every
task whose relevant date is unset, and the `within_days` filters keep
exactly the tasks whose date lies in the inclusive window
`[today, today + n]`. -/
theorem C6_date_filters :
    (∀ (ts : List Task) (a : FilterArgs) (today : Date) (t : Task),
      t ∈ filter_tasks ts a today →
      a.due_before.isSome = true ∨ a.due_after.isSome = true →
      t.due_date.isSome = true) ∧
    (∀ (ts : List Task) (a : FilterArgs) (today : Date) (t : Task),
      t ∈ filter_tasks ts a today →
      a.scheduled_before.isSome = true ∨ a.scheduled_after.isSome = true →
      t.scheduled_date.isSome = true) ∧
    (∀ (ts : List Task) (n : Nat) (today : Date),
      filter_tasks ts { due_within_days := some n } today =
        ts.filter (fun t => match t.due_date with
          | some d => Date.leb today d && Date.leb d (addDays today n)
          | none => false)) ∧
    (∀ (ts : List Task) (n : Nat) (today : Date),
      filter_tasks ts { scheduled_within_days := some n } today =
        ts.filter (fun t => match t.scheduled_date with
          | some d => Date.leb today d && Date.leb d (addDays today n)
          | none => false)) := by
  refine ⟨?_, ?_, fun ts n today => rfl, fun ts n today => rfl⟩
  · intro ts a today t hmem hsome
    simp only [filter_tasks] at hmem
    have m9 := mem_of_mem_guardFilter _ _ _ _ _ hmem
    have m8 := mem_of_mem_guardFilter _ _ _ _ _ m9
    have m7 := mem_of_mem_guardFilter _ _ _ _ _ m8
    have m6 := mem_of_mem_guardFilter _ _ _ _ _ m7
    have m5 := mem_of_mem_guardFilter _ _ _ _ _ m6
    have m4 := mem_of_mem_guardFilter _ _ _ _ _ m5
    rcases hsome with hs | hs
    · obtain ⟨b, hb⟩ := Option.isSome_iff_exists.mp hs
      have m3 := mem_of_mem_guardFilter _ _ _ _ _ m4
      rw [hb] at m3
      have hp := pred_of_mem_guardFilter b _ _ _ t m3 rfl
      cases hdd : t.due_date with
      | none => rw [hdd] at hp; simp at hp
      | some d => rfl
    · obtain ⟨b, hb⟩ := Option.isSome_iff_exists.mp hs
      rw [hb] at m4
      have hp := pred_of_mem_guardFilter b _ _ _ t m4 rfl
      cases hdd : t.due_date with
      | none => rw [hdd] at hp; simp at hp
      | some d => rfl
  · intro ts a today t hmem hsome
    simp only [filter_tasks] at hmem
    have m9 := mem_of_mem_guardFilter _ _ _ _ _ hmem
    have m8 := mem_of_mem_guardFilter _ _ _ _ _ m9
    have m7 := mem_of_mem_guardFilter _ _ _ _ _ m8
    rcases hsome with hs | hs
    · obtain ⟨b, hb⟩ := Option.isSome_iff_exists.mp hs
      have m6 := mem_of_mem_guardFilter _ _ _ _ _ m7
      rw [hb] at m6
      have hp := pred_of_mem_guardFilter b _ _ _ t m6 rfl
      cases hdd : t.scheduled_date with
      | none => rw [hdd] at hp; simp at hp
      | some d => rfl
    · obtain ⟨b, hb⟩ := Option.isSome_iff_exists.mp hs
      rw [hb] at m7
      have hp := pred_of_mem_guardFilter b _ _ _ t m7 rfl
      cases hdd : t.scheduled_date with
      | none => rw [hdd] at hp; simp at hp
      | some d => rfl

/-- C6 witness. -/
theorem C6_witness :
    exTaskDue.due_date.isSome = true ∧
    filter_tasks [exTaskDue, exTaskNoDue] { due_within_days := some 30 }
      ⟨2025, 1, 1⟩ =
      [exTaskDue, exTaskNoDue].filter (fun t => match t.due_date with
        | some d => Date.leb ⟨2025, 1, 1⟩ d &&
            Date.leb d (addDays ⟨2025, 1, 1⟩ 30)
        | none => false) :=
  ⟨C6_date_filters.1 [exTaskDue, exTaskNoDue] { due_before := some ⟨2026, 1, 1⟩ }
      ⟨2025, 1, 1⟩ exTaskDue (by decide) (Or.inl (by decide)),
   C6_date_filters.2.2.1 [exTaskDue, exTaskNoDue] 30 ⟨2025, 1, 1⟩⟩

/-! ## C7: create_task recurrence validation -/

/-- C7: a truthy recurrence not starting with "every" (after strip/lower)
makes `create_task` raise an invalid-input error before any write — the file
is returned unchanged; a recurrence that does start with "every" never
produces the recurrence error. -/
theorem C7_recurrence_validation (file : Option (List Char))
    (tc : List Char) (p : String) (d sc st : Option (List Char))
    (r : List Char) (ia : String) (hd : Option (List Char)) (f : String) :
    (r ≠ [] → startsWithEvery r = false →
      ∃ e, create_task file tc p d sc st (some r) ia hd f = (file, .err e)) ∧
    (startsWithEvery r = true →
      (create_task file tc p d sc st (some r) ia hd f).2 ≠
        CreateOutcome.err CreateError.badRecurrence) := by
  constructor
  · intro hne hs
    unfold create_task
    cases h1 : optDateArg d with
    | none => exact ⟨.badDueDate, rfl⟩
    | some dd =>
      cases h2 : optDateArg sc with
      | none => exact ⟨.badScheduledDate, rfl⟩
      | some sd =>
        cases h3 : optDateArg st with
        | none => exact ⟨.badStartDate, rfl⟩
        | some std =>
          refine ⟨.badRecurrence, ?_⟩
          dsimp only
          rw [if_pos ⟨hne, hs⟩]
  · intro hs
    unfold create_task
    cases h1 : optDateArg d with
    | none => simp
    | some dd =>
      cases h2 : optDateArg sc with
      | none => simp
      | some sd =>
        cases h3 : optDateArg st with
        | none => simp
        | some std =>
          dsimp only
          rw [if_neg (by simp [hs])]
          simp

/-- C7 witness: a rejected and an accepted recurrence at concrete inputs. -/
theorem C7_witness :
    (∃ e, create_task (some ['x', '\n']) ['c'] "normal" none none none
      (some ['w', 'e', 'e', 'k', 'l', 'y']) "end" none "f.md" =
      (some ['x', '\n'], .err e)) ∧
    (create_task (some ['x', '\n']) ['c'] "normal" none none none
      (some ['E', 'v', 'e', 'r', 'y', ' ', 'd', 'a', 'y']) "end" none "f.md").2 ≠
      CreateOutcome.err CreateError.badRecurrence :=
  ⟨(C7_recurrence_validation (some ['x', '\n']) ['c'] "normal" none none none
      ['w', 'e', 'e', 'k', 'l', 'y'] "end" none "f.md").1 (by decide) (by decide),
   (C7_recurrence_validation (some ['x', '\n']) ['c'] "normal" none none none
      ['E', 'v', 'e', 'r', 'y', ' ', 'd', 'a', 'y'] "end" none "f.md").2 (by decide)⟩

/-! ## C9: search_tasks truncation -/

theorem length_insertSorted {α : Type} (le : α → α → Bool) (x : α)
    (l : List α) : (insertSorted le x l).length = l.length + 1 := by
  induction l with
  | nil => rfl
  | cons y ys ih =>
    unfold insertSorted
    split_ifs <;> simp [ih]

theorem length_sortBy {α : Type} (le : α → α → Bool) (l : List α) :
    (sortBy le l).length = l.length := by
  induction l with
  | nil => rfl
  | cons x xs ih =>
    unfold sortBy
    rw [length_insertSorted, ih]
    rfl

theorem length_filter_pair (p : Task → Bool) (l : List Task) :
    (l.filter p).length + (l.filter (fun x => !p x)).length = l.length := by
  induction l with
  | nil => rfl
  | cons a l ih =>
    by_cases h : p a <;> simp [List.filter_cons, h] <;> omega

theorem length_sort_tasks (tasks : List Task) (sb so : String) :
    (sort_tasks tasks sb so).length = tasks.length := by
  unfold sort_tasks
  split_ifs with h1 h2 h3 h4
  · dsimp only
    split_ifs <;>
      simp only [List.length_append, length_sortBy] <;>
      first
        | exact length_filter_pair _ _
        | (rw [Nat.add_comm]; exact length_filter_pair _ _)
  · dsimp only
    exact length_sortBy _ _
  · dsimp only
    split_ifs <;> exact length_sortBy _ _
  · dsimp only
    split_ifs <;> exact length_sortBy _ _
  · rfl

/-- C9: the search core returns the first `min(limit, total)` tasks of the
filtered-and-sorted sequence, reports `total_found` as the post-filter,
pre-truncation count, and sets `truncated` iff `total_found > limit`. -/
theorem C9_search_truncation (allTasks : List Task) (a : FilterArgs)
    (today : Date) (L : Nat) (sb so : String) (hL : 1 ≤ L) :
    (search_tasks allTasks a today L sb so).tasks =
      (sort_tasks (filter_tasks allTasks a today) sb so).take L ∧
    (search_tasks allTasks a today L sb so).tasks.length =
      min L (search_tasks allTasks a today L sb so).total_found ∧
    (search_tasks allTasks a today L sb so).total_found =
      (filter_tasks allTasks a today).length ∧
    ((search_tasks allTasks a today L sb so).truncated = true ↔
      L < (search_tasks allTasks a today L sb so).total_found) := by
  refine ⟨rfl, ?_, ?_, ?_⟩
  · simp [search_tasks, List.length_take]
  · simp [search_tasks, length_sort_tasks]
  · simp [search_tasks, gt_iff_lt]

/-- C9 witness at a concrete two-task scan with limit 1. -/
theorem C9_witness :
    (search_tasks [exTaskNoDue, exTaskDue] {} ⟨2025, 1, 1⟩ 1 "due_date" "asc").tasks =
      (sort_tasks (filter_tasks [exTaskNoDue, exTaskDue] {} ⟨2025, 1, 1⟩)
        "due_date" "asc").take 1 ∧
    (search_tasks [exTaskNoDue, exTaskDue] {} ⟨2025, 1, 1⟩ 1 "due_date" "asc").tasks.length =
      min 1 (search_tasks [exTaskNoDue, exTaskDue] {} ⟨2025, 1, 1⟩ 1 "due_date" "asc").total_found ∧
    (search_tasks [exTaskNoDue, exTaskDue] {} ⟨2025, 1, 1⟩ 1 "due_date" "asc").total_found =
      (filter_tasks [exTaskNoDue, exTaskDue] {} ⟨2025, 1, 1⟩).length ∧
    ((search_tasks [exTaskNoDue, exTaskDue] {} ⟨2025, 1, 1⟩ 1 "due_date" "asc").truncated = true ↔
      1 < (search_tasks [exTaskNoDue, exTaskDue] {} ⟨2025, 1, 1⟩ 1 "due_date" "asc").total_found) :=
  C9_search_truncation [exTaskNoDue, exTaskDue] {} ⟨2025, 1, 1⟩ 1 "due_date" "asc"
    (by decide)

/-! ## C10: invalid priority value is skipped -/

theorem applyPriorityUpd_invalid (t : Task) (s : String)
    (hs : ¬(s = "highest" ∨ s = "high" ∨ s = "normal" ∨ s = "low" ∨
      s = "lowest")) :
    applyPriorityUpd t (some (some s)) = (t, []) := by
  unfold applyPriorityUpd
  dsimp only
  rw [if_neg hs]

theorem apply_updates_erase_priority (t : Task) (u : MetaUpdates) (s : String)
    (hp : u.priority = some (some s))
    (hs : ¬(s = "highest" ∨ s = "high" ∨ s = "normal" ∨ s = "low" ∨
      s = "lowest")) :
    apply_updates t u = apply_updates t { u with priority := none } := by
  unfold apply_updates
  rw [hp, applyPriorityUpd_invalid t s hs]
  rfl

theorem applyRecurrenceUpd_changes (t : Task) (o : Option (Option (List Char))) :
    "priority" ∉ (applyRecurrenceUpd t o).2 := by
  unfold applyRecurrenceUpd
  match o with
  | none => simp
  | some none => simp
  | some (some s) =>
    dsimp only
    split_ifs <;> simp

theorem applyRecurrenceUpd_priority (t : Task) (o : Option (Option (List Char))) :
    (applyRecurrenceUpd t o).1.priority = t.priority := by
  unfold applyRecurrenceUpd
  match o with
  | none => rfl
  | some none => rfl
  | some (some s) =>
    dsimp only
    split_ifs <;> rfl

theorem priority_not_mem_changes (t : Task) (u : MetaUpdates)
    (res : Task × List String) (hp : u.priority = none)
    (h : apply_updates t u = some res) : "priority" ∉ res.2 := by
  unfold apply_updates at h
  rw [hp] at h
  simp only [applyPriorityUpd] at h
  split at h
  · exact absurd h (by simp)
  · split at h
    · exact absurd h (by simp)
    · split at h
      · exact absurd h (by simp)
      · injection h with h2
        rw [← h2]
        simp only [List.mem_append, not_or, List.nil_append]
        refine ⟨⟨⟨?_, ?_⟩, ?_⟩, applyRecurrenceUpd_changes _ _⟩
        · split_ifs <;> decide
        · split_ifs <;> decide
        · split_ifs <;> decide

theorem apply_updates_priority_preserved (t : Task) (u : MetaUpdates)
    (res : Task × List String) (hp : u.priority = none)
    (h : apply_updates t u = some res) : res.1.priority = t.priority := by
  unfold apply_updates at h
  rw [hp] at h
  simp only [applyPriorityUpd] at h
  split at h
  · exact absurd h (by simp)
  · split at h
    · exact absurd h (by simp)
    · split at h
      · exact absurd h (by simp)
      · injection h with h2
        rw [← h2]
        exact applyRecurrenceUpd_priority _ _

/-- C10: an update whose `"priority"` value is neither null nor one of the
five priority names behaves exactly as the same call without the priority
key: the priority field is untouched, `"priority"` never enters
`changes_made`, and the outcome (success and rewritten line) is that of the
otherwise-updated task. -/
theorem C10_invalid_priority_skipped (content : List Char) (ln : Nat)
    (u : MetaUpdates) (f : String) (s : String)
    (hp : u.priority = some (some s))
    (hs : ¬(s = "highest" ∨ s = "high" ∨ s = "normal" ∨ s = "low" ∨
      s = "lowest")) :
    update_task_metadata content ln u f =
      update_task_metadata content ln { u with priority := none } f ∧
    "priority" ∉ (update_task_metadata content ln u f).changes_made ∧
    (∀ (t : Task) (res : Task × List String), apply_updates t u = some res →
      res.1.priority = t.priority) := by
  have heq : ∀ t : Task,
      apply_updates t u = apply_updates t { u with priority := none } :=
    fun t => apply_updates_erase_priority t u s hp hs
  refine ⟨?_, ?_, ?_⟩
  · unfold update_task_metadata
    simp only [heq]
  · unfold update_task_metadata
    dsimp only
    split_ifs with hrange
    · simp
    · cases hparse : parse_task_line ((splitKeepNL content).getD (ln - 1) [])
        ln f with
      | none => simp
      | some t =>
        dsimp only
        rw [heq t]
        cases happ : apply_updates t { u with priority := none } with
        | none => simp
        | some pr =>
          obtain ⟨t2, ch⟩ := pr
          simp only []
          exact priority_not_mem_changes t _ (t2, ch) rfl happ
  · intro t res h
    rw [heq t] at h
    exact apply_updates_priority_preserved t _ res rfl h

/-- C10 witness: at a concrete one-task file with an invalid priority value
and a valid due-date update, the call equals the priority-less call,
`"priority"` is absent from the changes, and the call succeeds. -/
theorem C10_witness :
    update_task_metadata c10Content 1 c10Updates "f.md" =
      update_task_metadata c10Content 1 { c10Updates with priority := none }
        "f.md" ∧
    "priority" ∉ (update_task_metadata c10Content 1 c10Updates "f.md").changes_made ∧
    (update_task_metadata c10Content 1 c10Updates "f.md").success = true :=
  ⟨(C10_invalid_priority_skipped c10Content 1 c10Updates "f.md" "urgent" rfl
      (by decide)).1,
   (C10_invalid_priority_skipped c10Content 1 c10Updates "f.md" "urgent" rfl
      (by decide)).2.1,
   by decide⟩

end ObsidianTasks
